import Mathlib

/-!
# Verification of the Historical-Sales normalization + aggregation core

Shallow embedding of the core of `src/src/App.jsx`: month-key arithmetic,
the month-token parser, the record normalizer, the branch filter, the
period aggregator (`chartData`), the rolling-12 engine (`r12Data`,
`r12ValueData`) and the branch summary builder (`branchSummary`).

Modelling conventions:
* JS numbers are modelled as rationals (`ℚ`); `NaN` is modelled as
  `Option.none` at the points where the code can produce it.
* JS cell values (after PapaParse with `dynamicTyping`) are strings,
  numbers or `null`, modelled by the inductive `Cell`; an absent object
  property (`undefined`) is modelled by `Option Cell := none`.
* JS objects used as string-keyed accumulators are modelled as
  insertion-ordered association lists, matching JS property order.
-/

/- Core marks the arithmetic of `Rat` irreducible; re-enable definitional
unfolding so that concrete witnesses can be checked by `decide`. -/
set_option allowUnsafeReducibility true in
attribute [semireducible] Rat.add Rat.mul Rat.sub Rat.div Rat.neg Rat.inv

namespace HistoricalSales

/-! ### String primitives

The JS string primitives used by the core (`trim`, `toLowerCase`,
`split("-")`, `replace(/,/g, "")`, `slice(0, 3)`) are modelled by
structurally recursive functions on the character list of the string. -/

/-- `String.prototype.trim` (on the whitespace characters Lean knows). -/
def jsTrimChars (l : List Char) : List Char :=
  ((l.dropWhile Char.isWhitespace).reverse.dropWhile Char.isWhitespace).reverse

/-- `s.trim()`. -/
def jsTrim (s : String) : String := ⟨jsTrimChars s.data⟩

/-- `s.toLowerCase()` (character-wise). -/
def jsLower (s : String) : String := ⟨s.data.map Char.toLower⟩

/-- `s.replace(/,/g, "")`. -/
def removeCommas (s : String) : String := ⟨s.data.filter (fun c => c ≠ ',')⟩

/-- `s.split("-")` (every occurrence splits; empty segments are kept). -/
def splitOnDash (l : List Char) : List (List Char) :=
  l.foldr
    (fun c acc =>
      if c = '-' then [] :: acc
      else
        match acc with
        | h :: t => (c :: h) :: t
        | [] => [[c]])
    [[]]

/-- A raw CSV cell after PapaParse `dynamicTyping`: a string, a number or `null`. -/
inductive Cell where
  | str (s : String)
  | num (q : ℚ)
  | nullv
deriving DecidableEq, Repr

/-- A raw row object: column name ↦ cell, in property order. -/
abbrev RawRow := List (String × Cell)

/-- `row[k]` : property lookup; `none` models `undefined`. -/
def RawRow.get (r : RawRow) (k : String) : Option Cell :=
  (r.find? (fun p => p.1 == k)).map (·.2)

/-- Numeric value of a decimal digit list, most significant first. -/
def digitsVal (l : List Char) : ℕ :=
  l.foldl (fun a c => 10 * a + (c.toNat - 48)) 0

/-- Parse an unsigned decimal numeral (digits, optional `.` and digits). -/
def parseUnsigned (l : List Char) : Option ℚ :=
  let intPart := l.takeWhile Char.isDigit
  let rest := l.dropWhile Char.isDigit
  match rest with
  | [] => if intPart.isEmpty then none else some (digitsVal intPart : ℚ)
  | '.' :: frac =>
    if frac.all Char.isDigit ∧ ¬(intPart.isEmpty ∧ frac.isEmpty) then
      some ((digitsVal intPart : ℚ) + (digitsVal frac : ℚ) / (10 : ℚ) ^ frac.length)
    else none
  | _ => none

/-- Parse an optionally signed decimal numeral. -/
def parseSigned : List Char → Option ℚ
  | '+' :: rest => parseUnsigned rest
  | '-' :: rest => (parseUnsigned rest).map (fun q => -q)
  | l => parseUnsigned l

/-- Modelled: JS `Number()` applied to a string — surrounding whitespace is
ignored, the empty string is `0`, decimal numerals (optional sign, digits,
optional fractional part) have their value, anything else is `NaN` (`none`).
Exponent, hex, binary and `Infinity` forms are outside the model. -/
def jsCharsToNum (l : List Char) : Option ℚ :=
  let t := jsTrimChars l
  if t.isEmpty then some 0 else parseSigned t

/-- `Number(s)` for a string `s`. -/
def jsStrToNum (s : String) : Option ℚ := jsCharsToNum s.data

/-- `Number(cell)`; `none` argument models `Number(undefined) = NaN`. -/
def cellNum : Option Cell → Option ℚ
  | none => none
  | some Cell.nullv => some 0
  | some (Cell.num q) => some q
  | some (Cell.str s) => jsStrToNum s

/-- JS truthiness of a (possibly absent) cell value. -/
def cellTruthy : Option Cell → Bool
  | none => false
  | some Cell.nullv => false
  | some (Cell.num q) => q != 0
  | some (Cell.str s) => s != ""

/-- Modelled: JS number-to-string. Exact for integers (the only case the
claims depend on — branch codes and year/month values are integers there);
non-integral rationals are rendered as `num/den`, a placeholder for the JS
decimal rendering which no claim inspects. -/
def ratToJsString (q : ℚ) : String :=
  if q.den = 1 then toString q.num else toString q.num ++ "/" ++ toString q.den

/-- `String(cell)`. -/
def cellToString : Cell → String
  | Cell.str s => s
  | Cell.num q => ratToJsString q
  | Cell.nullv => "null"

/-- `monthNames` from App.jsx. -/
def monthNames : List String :=
  ["Jan","Feb","Mar","Apr","May","Jun","Jul","Aug","Sep","Oct","Nov","Dec"]

/-- `Math.max(1, Math.min(12, n))`. -/
def clamp112 (n : ℚ) : ℚ := max 1 (min 12 n)

/-- `toMonthIndex` (App.jsx:57-64).  The argument is `row[periodCol]`; `none`
models `undefined` (caught by `m == null` together with `null`).  The code
computes `Number(String(m).trim())`; for a number cell the
string/number round-trip is the identity, and for a string cell the explicit
`.trim()` coincides with the trimming `Number` itself performs, which
`jsStrToNum` models. -/
def toMonthIndex : Option Cell → Option ℚ
  | none => none
  | some Cell.nullv => none
  | some (Cell.num q) => some (clamp112 q)
  | some (Cell.str s) =>
    match jsStrToNum s with
    | some n => some (clamp112 n)
    | none =>
      match monthNames.findIdx?
          (fun x => jsLower x == ⟨((jsTrimChars s.data).take 3).map Char.toLower⟩) with
      | some i => some ((i : ℚ) + 1)
      | none => none

/-- `ymToKey` (App.jsx:39). -/
def ymToKey (y m : ℚ) : ℚ := y * 100 + m

/-- `keyFromStr` (App.jsx:40): split on `-`, `Number` the first two pieces,
reject falsy year or month. -/
def keyFromStr (s : String) : Option ℚ :=
  if s = "" then none
  else
    match (splitOnDash s.data).map jsCharsToNum with
    | some yy :: some mm :: _ =>
        if yy ≠ 0 ∧ mm ≠ 0 then some (ymToKey yy mm) else none
    | _ => none

/-- JS truncation toward zero (used by the JS `%` operator). -/
def jsTrunc (q : ℚ) : ℤ := if 0 ≤ q then ⌊q⌋ else ⌈q⌉

/-- JS remainder `a % b`: `a - b * trunc(a / b)` (sign follows the dividend). -/
def jsMod (a b : ℚ) : ℚ := a - b * (jsTrunc (a / b) : ℚ)

/-- Decoding of a month key as performed in `hydrateFromParsed`
(App.jsx:603-604): `Math.floor(key / 100)` and `key % 100`. -/
def fromKey (k : ℚ) : ℚ × ℚ := ((⌊k / 100⌋ : ℚ), jsMod k 100)

/-! ## Record normalizer (`normalizeParsedRows`, App.jsx:507-547) -/

/-- A normalized fact (one per valid (row, category-column) pair). -/
structure Fact where
  Year : ℚ
  Month : ℚ
  Category : String
  Value : ℚ
  Branch : Option String
deriving DecidableEq, Repr

/-- Normalization failure taxonomy (the three `throw new Error(...)` sites). -/
inductive NormError where
  | noHeaders      -- "No headers found in CSV."
  | missingColumn  -- "Missing Year or Period/Month columns."
  | emptyDataset   -- "No valid rows found in CSV."
deriving DecidableEq, Repr

/-- `DIMENSION_COLUMN_NAMES` (App.jsx:23-29). -/
def DIMENSION_COLUMN_NAMES : List String := ["date", "month", "year", "period", "branch"]

def yearSynonyms : List String := ["year", "yr", "fy", "fiscal year"]
def periodSynonyms : List String := ["period", "per", "month"]
def branchSynonyms : List String := ["branch name", "branch", "store", "location"]

/-- Resolved header list: `meta.fields` if non-empty else the first row's
keys, each trimmed, falsy (empty) entries dropped (App.jsx:509-511). -/
def headersOf (metaFields : List String) (records : List RawRow) : List String :=
  let base := if metaFields.length ≠ 0 then metaFields else (records.headD []).map (·.1)
  (base.map jsTrim).filter (fun h => h ≠ "")

/-- `headers.find(h => /^(syn1|syn2|...)$/i.test(h))`: first header whose
lowercase form is exactly one of the synonyms. -/
def findHeader (synonyms : List String) (headers : List String) : Option String :=
  headers.find? (fun h => synonyms.contains (jsLower h))

/-- Candidate category columns (App.jsx:520-523). -/
def catColsOf (headers : List String) (yearCol periodCol : String)
    (branchCol : Option String) : List String :=
  (headers.filter (fun h =>
      h ≠ "" ∧ h ≠ yearCol ∧ h ≠ periodCol ∧ branchCol ≠ some h)).filter
    (fun h => ¬ DIMENSION_COLUMN_NAMES.contains (jsLower (jsTrim h)))

/-- `toMonthIndex(row[periodCol]) || Number(row[periodCol])` (App.jsx:528):
JS `||` falls through on `null` and `0`. -/
def monthOf (c : Option Cell) : Option ℚ :=
  match toMonthIndex c with
  | some v => if v ≠ 0 then some v else cellNum c
  | none => cellNum c

/-- `B ? String(B).trim() : undefined` (App.jsx:540). -/
def branchOf : Option Cell → Option String
  | none => none
  | some c => if cellTruthy (some c) then some (jsTrim (cellToString c)) else none

/-- `Number(String(raw ?? "").replace(/,/g, ""))` (App.jsx:533); for a number
cell the string/number round-trip is the identity (JS number strings never
contain a comma). `none` result models `NaN` (the cell is skipped). -/
def catCellValue : Option Cell → Option ℚ
  | none => some 0
  | some Cell.nullv => some 0
  | some (Cell.num q) => some q
  | some (Cell.str s) => jsStrToNum (removeCommas s)

/-- Facts produced by one raw row (App.jsx:526-543): skip the row when
`Y` or `M` is falsy (`NaN` or `0`); skip a single category cell when its
value is `NaN`. -/
def rowFacts (yearCol periodCol : String) (branchCol : Option String)
    (catCols : List String) (row : RawRow) : List Fact :=
  match cellNum (row.get yearCol), monthOf (row.get periodCol) with
  | some y, some m =>
    if y ≠ 0 ∧ m ≠ 0 then
      let b := match branchCol with
               | some bc => branchOf (row.get bc)
               | none => none
      catCols.filterMap (fun col =>
        (catCellValue (row.get col)).map (fun v =>
          { Year := y, Month := m, Category := jsTrim col, Value := v, Branch := b }))
    else []
  | _, _ => []

/-- The fact list produced once the three id columns are resolved. -/
def parsedFactsOf (records : List RawRow) (yearCol periodCol : String)
    (branchCol : Option String) (catCols : List String) : List Fact :=
  records.flatMap (rowFacts yearCol periodCol branchCol catCols)

/-- `normalizeParsedRows` (App.jsx:507-547). -/
def normalizeParsedRows (records : List RawRow) (metaFields : List String) :
    Except NormError (List Fact) :=
  let headers := headersOf metaFields records
  if headers.isEmpty then .error .noHeaders
  else
    match findHeader yearSynonyms headers, findHeader periodSynonyms headers with
    | some yc, some pc =>
      let bc := findHeader branchSynonyms headers
      let parsed := parsedFactsOf records yc pc bc (catColsOf headers yc pc bc)
      if parsed.isEmpty then .error .emptyDataset else .ok parsed
    | _, _ => .error .missingColumn

/-! ## Branch filter and window filter -/

/-- The multi-select "All" sentinel (App.jsx:224). -/
def ALL : String := "__ALL__"

/-- `matchBranch` (App.jsx:670-675, identically at 700-705 and 845-850):
`includeAll = selectedBranches.includes(ALL)`; otherwise a falsy branch
(absent or empty string) never matches; otherwise membership. -/
def matchesBranch (selectedBranches : List String) (b : Option String) : Bool :=
  if selectedBranches.contains ALL then true
  else
    match b with
    | none => false
    | some s => if s = "" then false else selectedBranches.contains s

/-- `startKey && endKey && startKey <= endKey` where the keys come from
`keyFromStr` (a missing key is `null`, falsy; `0` would also be falsy). -/
def hasRange (sk ek : Option ℚ) : Bool :=
  match sk, ek with
  | some a, some b => decide (a ≠ 0 ∧ b ≠ 0 ∧ a ≤ b)
  | _, _ => false

/-- `k >= startKey && k <= endKey` (only consulted when `hasRange`). -/
def inRange (sk ek : Option ℚ) (k : ℚ) : Bool :=
  match sk, ek with
  | some a, some b => decide (a ≤ k ∧ k ≤ b)
  | _, _ => true

/-- A fact survives the window test `if (hasRange && (k < startKey || k > endKey)) continue`. -/
def passesWindow (sk ek : Option ℚ) (k : ℚ) : Bool :=
  !hasRange sk ek || inRange sk ek k

/-! ## Per-month aggregation rows -/

/-- One output row of `chartData` / `monthlyAggAllMonths`: the fixed
`Year`/`Month`/`month`-label properties plus the per-category sums added as
further properties (modelled as an insertion-ordered association list). -/
structure MonthRow where
  Year : ℚ
  Month : ℚ
  label : String
  cats : List (String × ℚ)
deriving DecidableEq, Repr, Inhabited

/-- First-match association lookup (`obj[k]`, `none` = `undefined`). -/
def lookupCat {α : Type} (l : List (String × α)) (k : String) : Option α :=
  (l.find? (fun p => p.1 == k)).map (·.2)

/-- `obj[k] || 0` for a numeric accumulator object. -/
def lookupCatD (l : List (String × ℚ)) (k : String) : ℚ :=
  (lookupCat l k).getD 0

/-- `obj[k] = (obj[k] || 0) + v` on a JS object: update the existing
property in place, or append a new property in property order. -/
def bumpCat (l : List (String × ℚ)) (k : String) (v : ℚ) : List (String × ℚ) :=
  if l.any (fun p => p.1 == k) then
    l.map (fun p => if p.1 == k then (p.1, p.2 + v) else p)
  else l ++ [(k, v)]

/-- `monthNames[r.Month - 1]`, with a non-integral or out-of-range index
yielding `undefined` (rendered `"undefined"` inside the template literal). -/
def monthNameAt (m : ℚ) : String :=
  if m.den = 1 ∧ 1 ≤ m.num ∧ m.num ≤ 12 then monthNames.getD (m.num - 1).toNat "undefined"
  else "undefined"

/-- The label `` `${monthNames[r.Month - 1]} ${r.Year}` ``. -/
def mkMonthLabel (y m : ℚ) : String := monthNameAt m ++ " " ++ ratToJsString y

/-- Both aggregators key their map by the string `` `${y}-${pad2(m)}` ``,
which is injective in the `(Year, Month)` pair; we group by the pair. -/
def sameMonth (y m : ℚ) (mr : MonthRow) : Bool := mr.Year == y && mr.Month == m

/-- `if (!map.has(k)) map.set(k, {Year, Month, month})` — JS `Map` keeps
insertion order. -/
def ensureMonth (acc : List MonthRow) (y m : ℚ) : List MonthRow :=
  if acc.any (sameMonth y m) then acc
  else acc ++ [{ Year := y, Month := m, label := mkMonthLabel y m, cats := [] }]

/-- Add `v` to category `c` of the (unique) entry for month `(y, m)`. -/
def bumpMonth (acc : List MonthRow) (y m : ℚ) (c : String) (v : ℚ) : List MonthRow :=
  acc.map (fun mr => if sameMonth y m mr then { mr with cats := bumpCat mr.cats c v } else mr)

/-- The sort order `(a, b) => a.Year - b.Year || a.Month - b.Month`. -/
def monthRowLE (a b : MonthRow) : Prop :=
  a.Year < b.Year ∨ (a.Year = b.Year ∧ a.Month ≤ b.Month)

instance : DecidableRel monthRowLE := fun a b => by
  unfold monthRowLE; infer_instance

/-- `Array.prototype.sort` with the `(Year, Month)` comparator, modelled by a
(stable) insertion sort. -/
def sortMonthRows (l : List MonthRow) : List MonthRow := l.insertionSort monthRowLE

/-! ## Period aggregator (`chartData`, App.jsx:664-695) -/

/-- One iteration of the `chartData` loop body. -/
def chartStep (cats branches : List String) (sk ek : Option ℚ)
    (acc : List MonthRow) (f : Fact) : List MonthRow :=
  if matchesBranch branches f.Branch then
    if passesWindow sk ek (ymToKey f.Year f.Month) then
      let acc' := ensureMonth acc f.Year f.Month
      if cats.contains f.Category then bumpMonth acc' f.Year f.Month f.Category f.Value
      else acc'
    else acc
  else acc

/-- `chartData` (App.jsx:664-695). -/
def chartData (facts : List Fact) (cats branches : List String)
    (dateStart dateEnd : String) : List MonthRow :=
  if facts.isEmpty then []
  else
    let sk := keyFromStr dateStart
    let ek := keyFromStr dateEnd
    sortMonthRows (facts.foldl (chartStep cats branches sk ek) [])

/-! ## Full-history monthly aggregate (`monthlyAggAllMonths`, App.jsx:698-721) -/

/-- One iteration of the `monthlyAggAllMonths` loop body: branch filter only
(no window test), every category accumulated; `(Number(r.Value) || 0)` is
`r.Value` since `Value : ℚ`. -/
def aggStep (branches : List String) (acc : List MonthRow) (f : Fact) : List MonthRow :=
  if matchesBranch branches f.Branch then
    bumpMonth (ensureMonth acc f.Year f.Month) f.Year f.Month f.Category f.Value
  else acc

/-- `monthlyAggAllMonths` (App.jsx:698-721). -/
def monthlyAggAllMonths (facts : List Fact) (branches : List String) : List MonthRow :=
  if facts.isEmpty then []
  else sortMonthRows (facts.foldl (aggStep branches) [])

/-! ## Rolling engine (`r12Data` App.jsx:724-757, `r12ValueData` App.jsx:760-792) -/

/-- A row of a rolling series: per-category value is `some q` (a number) or
`none` (`null`); an absent key means the property was never set. -/
structure R12Row where
  Year : ℚ
  Month : ℚ
  label : String
  cats : List (String × Option ℚ)
deriving DecidableEq, Repr, Inhabited

/-- `Number(A[j][cat] || 0)`: the category sum at index `j`, defaulting to 0. -/
def catAt (A : List MonthRow) (j : ℕ) (c : String) : ℚ :=
  lookupCatD (A.getD j default).cats c

/-- The loop `for (j = lo; j <= lo+len-1; j++) sum += Number(A[j][cat] || 0)`. -/
def sumWindow (A : List MonthRow) (c : String) (lo : ℕ) : ℕ → ℚ
  | 0 => 0
  | n + 1 => sumWindow A c lo n + catAt A (lo + n) c

/-- The row the `r12Data` loop pushes at index `i`. -/
def r12GrowthRowAt (cats : List String) (A : List MonthRow) (i : ℕ) : R12Row :=
  let mr := A.getD i default
  if i < 23 then { Year := mr.Year, Month := mr.Month, label := mr.label, cats := [] }
  else
    { Year := mr.Year, Month := mr.Month, label := mr.label,
      cats := cats.map (fun c =>
        let curr12 := sumWindow A c (i - 11) 12
        let prev12 := sumWindow A c (i - 23) 12
        (c, if prev12 ≠ 0 then some ((curr12 - prev12) / prev12) else none)) }

/-- The full (pre-clip) R12 growth series (`data` in App.jsx:727-745). -/
def r12GrowthFull (cats : List String) (A : List MonthRow) : List R12Row :=
  (List.range A.length).map (r12GrowthRowAt cats A)

/-- The row the `r12ValueData` loop pushes at index `i`. -/
def r12ValueRowAt (cats : List String) (A : List MonthRow) (i : ℕ) : R12Row :=
  let mr := A.getD i default
  { Year := mr.Year, Month := mr.Month, label := mr.label,
    cats := cats.map (fun c =>
      (c, if i < 11 then none else some (sumWindow A c (i - 11) 12))) }

/-- The full (pre-clip) rolling-12 value series (`data` in App.jsx:763-781). -/
def r12ValueFull (cats : List String) (A : List MonthRow) : List R12Row :=
  (List.range A.length).map (r12ValueRowAt cats A)

/-- Display clipping (App.jsx:747-756 and 783-791): when the window is
truthy and ordered, keep the entries whose key is inside it; otherwise
return the series unchanged. -/
def clipWindow (rows : List R12Row) (sk ek : Option ℚ) : List R12Row :=
  if hasRange sk ek then rows.filter (fun d => inRange sk ek (ymToKey d.Year d.Month))
  else rows

/-- `r12Data` (App.jsx:724-757). -/
def r12Data (facts : List Fact) (branches cats : List String)
    (dateStart dateEnd : String) : List R12Row :=
  let A := monthlyAggAllMonths facts branches
  if A.isEmpty || cats.isEmpty then []
  else clipWindow (r12GrowthFull cats A) (keyFromStr dateStart) (keyFromStr dateEnd)

/-- `r12ValueData` (App.jsx:760-792). -/
def r12ValueData (facts : List Fact) (branches cats : List String)
    (dateStart dateEnd : String) : List R12Row :=
  let A := monthlyAggAllMonths facts branches
  if A.isEmpty || cats.isEmpty then []
  else clipWindow (r12ValueFull cats A) (keyFromStr dateStart) (keyFromStr dateEnd)

/-! ## Branch summary builder (`branchSummary`, App.jsx:838-881) -/

/-- Per-branch accumulator: per-category sums (initialised to 0 for every
selected category) and the `__total` property. -/
structure BranchAcc where
  cats : List (String × ℚ)
  total : ℚ
deriving DecidableEq, Repr

/-- One output row `{ Branch, ...sums }`. -/
structure BranchRow where
  Branch : String
  cats : List (String × ℚ)
  total : ℚ
deriving DecidableEq, Repr

/-- `{ rows, totals }`; `totals` is the association list
`{...totals, __total: grand}` (per-category totals then `"__total"`). -/
structure BranchSummary where
  rows : List BranchRow
  totals : List (String × ℚ)
deriving DecidableEq, Repr

/-- `Object.fromEntries(selectedCategories.map(c => [c, 0]))`. -/
def initTotals (cats : List String) : List (String × ℚ) := cats.map (fun c => (c, 0))

/-- `totals[k] += v` — the key is known to be present. -/
def bumpAssoc (l : List (String × ℚ)) (k : String) (v : ℚ) : List (String × ℚ) :=
  l.map (fun p => if p.1 == k then (p.1, p.2 + v) else p)

/-- `(r.Branch && String(r.Branch).trim()) || "(Blank)"`. -/
def branchKey : Option String → String
  | none => "(Blank)"
  | some s => if s = "" then "(Blank)" else if jsTrim s = "" then "(Blank)" else jsTrim s

/-- The fold state of the `branchSummary` loop. -/
structure SumState where
  byBranch : List (String × BranchAcc)
  totals : List (String × ℚ)
  grand : ℚ
deriving Repr

/-- `const v = Number(r.Value) || 0` is `r.Value` since `Value : ℚ`; the
accepted-fact update of `byBranch`, `totals` and `grand`. -/
def summaryStep (cats branches : List String) (sk ek : Option ℚ)
    (s : SumState) (f : Fact) : SumState :=
  if matchesBranch branches f.Branch then
    if passesWindow sk ek (ymToKey f.Year f.Month) then
      if cats.contains f.Category then
        let b := branchKey f.Branch
        let by0 := if s.byBranch.any (fun p => p.1 == b) then s.byBranch
                   else s.byBranch ++ [(b, { cats := initTotals cats, total := 0 })]
        let by1 := by0.map (fun p =>
          if p.1 == b then
            (p.1, { cats := bumpAssoc p.2.cats f.Category f.Value,
                    total := p.2.total + f.Value })
          else p)
        { byBranch := by1,
          totals := bumpAssoc s.totals f.Category f.Value,
          grand := s.grand + f.Value }
      else s
    else s
  else s

/-- The output rows' sort order.  The source sorts with
`a.Branch.localeCompare(b.Branch, undefined, { numeric: true })`; the claims
proved about `branchSummary` are invariant under the choice of total
comparator, so the locale/numeric-aware comparator is modelled by the
dictionary order on the branch strings. -/
def branchRowLE (a b : BranchRow) : Prop := a.Branch ≤ b.Branch

instance : DecidableRel branchRowLE := fun a b => by
  unfold branchRowLE; infer_instance

/-- `branchSummary` (App.jsx:838-881). -/
def branchSummary (facts : List Fact) (cats branches : List String)
    (dateStart dateEnd : String) : BranchSummary :=
  if facts.isEmpty || cats.isEmpty then { rows := [], totals := [] }
  else
    let sk := keyFromStr dateStart
    let ek := keyFromStr dateEnd
    let st := facts.foldl (summaryStep cats branches sk ek)
      { byBranch := [], totals := initTotals cats, grand := 0 }
    let outRows := (st.byBranch.map (fun p =>
        { Branch := p.1, cats := p.2.cats, total := p.2.total : BranchRow })).insertionSort
      branchRowLE
    { rows := outRows, totals := st.totals ++ [("__total", st.grand)] }

/-! ## Statement helpers and concrete witness data -/

/-- A fact accepted by the branch filter and the window filter (used to state
properties of `chartData` and `branchSummary`). -/
def visibleFact (branches : List String) (sk ek : Option ℚ) (f : Fact) : Bool :=
  matchesBranch branches f.Branch && passesWindow sk ek (ymToKey f.Year f.Month)

/-- A fact accepted by the branch filter, window filter and category filter
(the facts `branchSummary` accumulates). -/
def acceptedByFilters (cats branches : List String) (sk ek : Option ℚ) (f : Fact) : Bool :=
  visibleFact branches sk ek f && cats.contains f.Category

/-- 24 consecutive months (2020-01 .. 2021-12) of a single category `"T"`
valued 100 — the witness dataset (the scenario of spec §8). -/
def witnessFacts : List Fact :=
  (List.range 24).map (fun k =>
    { Year := 2020 + ((k / 12 : ℕ) : ℚ), Month := ((k % 12 : ℕ) : ℚ) + 1,
      Category := "T", Value := 100, Branch := none })

/-- Two facts in distinct months, only the first of a selected category —
witness data for the period-aggregated series. -/
def mixedFacts : List Fact :=
  [{ Year := 2023, Month := 1, Category := "Total", Value := 100, Branch := some "A" },
   { Year := 2023, Month := 2, Category := "Other", Value := 7, Branch := some "B" }]

/-- The loop invariant of the `chartData` fold: after processing the facts
`l`, the accumulated months are exactly the months of the visible facts of
`l`, and each accumulated row carries exactly the selected categories for
which a visible fact of that month exists. -/
def chartInv (cats branches : List String) (sk ek : Option ℚ)
    (l : List Fact) (acc : List MonthRow) : Prop :=
  (∀ y m : ℚ, (∃ mr ∈ acc, mr.Year = y ∧ mr.Month = m) ↔
    (∃ f ∈ l, visibleFact branches sk ek f = true ∧ f.Year = y ∧ f.Month = m)) ∧
  (∀ mr ∈ acc, ∀ cc : String, (lookupCat mr.cats cc).isSome = true ↔
    (cc ∈ cats ∧ ∃ f ∈ l, visibleFact branches sk ek f = true ∧
      f.Year = mr.Year ∧ f.Month = mr.Month ∧ f.Category = cc))

/-- The loop invariant of the `branchSummary` fold: `totals` keeps exactly
the selected categories as keys; every per-branch accumulator does too; the
branch keys are distinct; the per-branch totals sum to the grand total; and
each per-category grand total is the sum of that category's column over the
per-branch accumulators. -/
def sumInv (cats : List String) (s : SumState) : Prop :=
  (s.totals.map (·.1) = cats) ∧
  (∀ p ∈ s.byBranch, p.2.cats.map (·.1) = cats) ∧
  ((s.byBranch.map (·.1)).Nodup) ∧
  ((s.byBranch.map (fun p => p.2.total)).sum = s.grand) ∧
  (∀ c ∈ cats, lookupCatD s.totals c =
    (s.byBranch.map (fun p => lookupCatD p.2.cats c)).sum)

instance : IsTotal MonthRow monthRowLE :=
  ⟨fun a b => by
    unfold monthRowLE
    rcases lt_trichotomy a.Year b.Year with h | h | h
    · exact Or.inl (Or.inl h)
    · rcases le_total a.Month b.Month with hm | hm
      · exact Or.inl (Or.inr ⟨h, hm⟩)
      · exact Or.inr (Or.inr ⟨h.symm, hm⟩)
    · exact Or.inr (Or.inl h)⟩

instance : IsTrans MonthRow monthRowLE :=
  ⟨fun a b c hab hbc => by
    unfold monthRowLE at *
    rcases hab with h1 | ⟨e1, m1⟩ <;> rcases hbc with h2 | ⟨e2, m2⟩
    · exact Or.inl (h1.trans h2)
    · exact Or.inl (e2 ▸ h1)
    · exact Or.inl (e1 ▸ h2)
    · exact Or.inr ⟨e1.trans e2, m1.trans m2⟩⟩

/-!
# Theorems

One theorem per claim of the specification, with counterexamples and
concrete witnesses where applicable.
-/

/-! ## C4 — month-key arithmetic -/

/-- **C4, counterexample.** The claim asserts the decode round-trip
`fromKey (toKey y m) = (y, m)` for *every* year.  For a negative year it
fails: JS `%` follows the sign of the dividend, so
`fromKey (toKey (-1) 5) = (-1, -95)`, not `(-1, 5)`. -/
theorem fromKey_toKey_negative_year :
    fromKey (ymToKey (-1) 5) = ((-1 : ℚ), (-95 : ℚ)) ∧
    fromKey (ymToKey (-1) 5) ≠ ((-1 : ℚ), (5 : ℚ)) := by
  constructor <;> decide

/-- **C4 (amended).** `toKey(2024,1) < toKey(2024,12) < toKey(2025,1)`, and
for every year `y ≥ 0` and month `m ∈ [1,12]` the decode
(`Math.floor(key/100)`, `key % 100`) recovers `(y, m)`; for negative years
the JS-`%` sign convention breaks the round-trip (see the counterexample). -/
theorem monthKey_order_and_roundtrip :
    ymToKey 2024 1 < ymToKey 2024 12 ∧ ymToKey 2024 12 < ymToKey 2025 1 ∧
    ∀ y m : ℤ, 0 ≤ y → 1 ≤ m → m ≤ 12 →
      fromKey (ymToKey (y : ℚ) (m : ℚ)) = ((y : ℚ), (m : ℚ)) := by
  refine ⟨by norm_num [ymToKey], by norm_num [ymToKey], fun y m hy h1 h12 => ?_⟩
  have h100 : (0 : ℚ) < 100 := by norm_num
  have hm1 : (1 : ℚ) ≤ (m : ℚ) := by exact_mod_cast h1
  have hm12 : (m : ℚ) ≤ 12 := by exact_mod_cast h12
  have hy0 : (0 : ℚ) ≤ (y : ℚ) := by exact_mod_cast hy
  have hfl : ⌊((y : ℚ) * 100 + (m : ℚ)) / 100⌋ = y := by
    rw [Int.floor_eq_iff]
    refine ⟨by rw [le_div_iff₀ h100]; nlinarith, ?_⟩
    rw [div_lt_iff₀ h100]
    nlinarith
  have hnn : (0 : ℚ) ≤ ((y : ℚ) * 100 + (m : ℚ)) / 100 := by
    apply div_nonneg _ (le_of_lt h100)
    nlinarith
  show ((⌊((y : ℚ) * 100 + (m : ℚ)) / 100⌋ : ℚ),
      jsMod ((y : ℚ) * 100 + (m : ℚ)) 100) = _
  rw [jsMod, jsTrunc, if_pos hnn, hfl]
  refine Prod.ext rfl ?_
  push_cast
  ring

/-- Witness for `monthKey_order_and_roundtrip` at `y = 2024`, `m = 5`. -/
theorem monthKey_order_and_roundtrip_witness :
    fromKey (ymToKey ((2024 : ℤ) : ℚ) ((5 : ℤ) : ℚ)) = (((2024 : ℤ) : ℚ), ((5 : ℤ) : ℚ)) :=
  monthKey_order_and_roundtrip.2.2 2024 5 (by decide) (by decide) (by decide)

/-! ## C5 — the month-token parser -/

/-- **C5, counterexample.** The token `"13"` is neither a numeric token
`"1"…"12"` nor a month-name prefix, so the claim requires `null`; the code
instead clamps any numeric token into `[1,12]` and returns `12`. -/
theorem toMonthIndex_13 :
    toMonthIndex (some (Cell.str "13")) = some 12 ∧
    toMonthIndex (some (Cell.str "13")) ≠ none := by
  constructor <;> decide

/-- **C5 (amended).** The month-token parser: `null`/`undefined` yields
`null`; a token whose string form parses as a number `n` (including `""`,
which parses as `0`) yields `clamp(n)` into `[1,12]` — in particular the
numeric tokens `"1"…"12"` map to themselves, but out-of-range numerics are
clamped rather than rejected; a non-numeric token is matched by comparing
its first three trimmed characters case-insensitively against the month
abbreviations Jan…Dec; all remaining tokens yield `null`. -/
theorem toMonthIndex_spec :
    (∀ k : ℕ, 1 ≤ k → k ≤ 12 →
      toMonthIndex (some (Cell.str (toString k))) = some (k : ℚ)) ∧
    (∀ s n, jsStrToNum s = some n →
      toMonthIndex (some (Cell.str s)) = some (clamp112 n)) ∧
    (∀ s, jsStrToNum s = none →
      toMonthIndex (some (Cell.str s)) =
        (monthNames.findIdx?
          (fun x => jsLower x == ⟨((jsTrimChars s.data).take 3).map Char.toLower⟩)).map
          (fun i => (i : ℚ) + 1)) ∧
    toMonthIndex none = none ∧ toMonthIndex (some Cell.nullv) = none := by
  refine ⟨?_, ?_, ?_, rfl, rfl⟩
  · intro k h1 h12
    interval_cases k <;> decide
  · intro s n h
    simp only [toMonthIndex, h]
  · intro s h
    simp only [toMonthIndex, h]
    cases hfind : monthNames.findIdx?
        (fun x => jsLower x == ⟨((jsTrimChars s.data).take 3).map Char.toLower⟩) <;>
      simp [hfind]

/-- Witness for `toMonthIndex_spec`: the numeric token `"7"`, the clamped
token `"0"`, and the name token `"December"`. -/
theorem toMonthIndex_spec_witness :
    toMonthIndex (some (Cell.str "7")) = some 7 ∧
    toMonthIndex (some (Cell.str "0")) = some (clamp112 0) ∧
    toMonthIndex (some (Cell.str "December")) = some 12 := by
  refine ⟨toMonthIndex_spec.1 7 (by decide) (by decide), ?_, ?_⟩
  · exact toMonthIndex_spec.2.1 "0" 0 (by decide)
  · rw [toMonthIndex_spec.2.2.1 "December" (by decide)]
    decide

/-! ## C7 — branch filter semantics -/

/-- **C7.** With the `ALL` sentinel among the selected branches every fact
matches (including `Branch = null`); with an explicit selection (no
sentinel; branch identifiers are non-empty strings, as produced by
`allBranches`, which filters falsy values) a fact matches iff its branch is
present and a member of the selection. -/
theorem matchesBranch_spec (sel : List String) (b : Option String) :
    (ALL ∈ sel → matchesBranch sel b = true) ∧
    (ALL ∉ sel → "" ∉ sel →
      (matchesBranch sel b = true ↔ ∃ s, b = some s ∧ s ∈ sel)) := by
  constructor
  · intro hall
    simp [matchesBranch, List.elem_iff, hall]
  · intro hall hemp
    cases b with
    | none => simp [matchesBranch, List.elem_iff, hall]
    | some s =>
      by_cases hs : s = ""
      · subst hs
        constructor
        · intro h
          exfalso
          simp [matchesBranch, List.elem_iff, hall] at h
        · rintro ⟨x, hx, hmem⟩
          cases hx
          exact absurd hmem hemp
      · simp [matchesBranch, List.elem_iff, hall, hs]

/-- Witness for `matchesBranch_spec`: the sentinel selection `[ALL]` matches
a branchless fact, and the explicit selection `["113"]` matches exactly the
branch `"113"`. -/
theorem matchesBranch_spec_witness :
    matchesBranch [ALL] none = true ∧
    matchesBranch ["113"] (some "113") = true ∧
    matchesBranch ["113"] none = false := by
  refine ⟨(matchesBranch_spec [ALL] none).1 (by decide), ?_, ?_⟩
  · exact ((matchesBranch_spec ["113"] (some "113")).2 (by decide) (by decide)).mpr
      ⟨"113", rfl, by decide⟩
  · have h := (matchesBranch_spec ["113"] none).2 (by decide) (by decide)
    cases hb : matchesBranch ["113"] none with
    | false => rfl
    | true =>
      obtain ⟨s, hs, -⟩ := h.mp hb
      cases hs

/-! ## Rolling-engine lemmas -/

theorem lookupCat_map_self {β : Type} (g : String → β) (cats : List String) (c : String)
    (hc : c ∈ cats) :
    lookupCat (cats.map (fun x => (x, g x))) c = some (g c) := by
  induction cats with
  | nil => cases hc
  | cons a t ih =>
    simp only [List.map_cons, lookupCat, List.find?]
    cases hac : (a == c) with
    | true =>
      have : a = c := by simpa using hac
      subst this
      simp
    | false =>
      have hne : a ≠ c := by simpa using hac
      have hct : c ∈ t := by
        cases hc with
        | head => exact absurd rfl hne
        | tail _ h => exact h
      simpa [hac, lookupCat] using ih hct

theorem r12GrowthFull_getD (cats : List String) (A : List MonthRow) (i : ℕ)
    (hi : i < A.length) :
    (r12GrowthFull cats A).getD i default = r12GrowthRowAt cats A i := by
  unfold r12GrowthFull
  rw [List.getD_eq_getElem _ _ (by simpa using hi)]
  simp

theorem r12ValueFull_getD (cats : List String) (A : List MonthRow) (i : ℕ)
    (hi : i < A.length) :
    (r12ValueFull cats A).getD i default = r12ValueRowAt cats A i := by
  unfold r12ValueFull
  rw [List.getD_eq_getElem _ _ (by simpa using hi)]
  simp

theorem sumWindow_eq_sum (A : List MonthRow) (c : String) (lo len : ℕ) :
    sumWindow A c lo len = ∑ k ∈ Finset.range len, catAt A (lo + k) c := by
  induction len with
  | zero => simp [sumWindow]
  | succ n ih => rw [sumWindow, ih, Finset.sum_range_succ]

theorem sumWindow_eq_sum_Icc (A : List MonthRow) (c : String) (i d : ℕ) (hd : d ≤ i) :
    sumWindow A c (i - d) (d + 1) = ∑ j ∈ Finset.Icc (i - d) i, catAt A j c := by
  have hcount : Nat.succ i - (i - d) = d + 1 := by omega
  rw [sumWindow_eq_sum, ← Nat.Ico_succ_right, Finset.sum_Ico_eq_sum_range, hcount]

/-! ## C1 — rolling-12 growth -/

/-- **C1.** In the R12 growth series over the branch-filtered full-history
monthly aggregate: below index 23 the emitted row has no per-category
properties at all; from index 23 on, each selected category `c` carries
`(current12 - prior12) / prior12` with `current12` the sum of `c` over
indices `[i-11, i]` and `prior12` the sum over `[i-23, i-12]` (absent
entries count as 0), and exactly `null` when `prior12 = 0` — never a
division by zero (the model's `Option` value rules out `NaN`/`Infinity`). -/
theorem r12Growth_spec (facts : List Fact) (branches cats : List String)
    (A : List MonthRow) (hA : A = monthlyAggAllMonths facts branches)
    (i : ℕ) (c : String) (hi : i < A.length) (hc : c ∈ cats) :
    (i < 23 → ((r12GrowthFull cats A).getD i default).cats = []) ∧
    (23 ≤ i →
      lookupCat ((r12GrowthFull cats A).getD i default).cats c =
        some (if (∑ j ∈ Finset.Icc (i - 23) (i - 12), catAt A j c) = 0 then none
          else some (((∑ j ∈ Finset.Icc (i - 11) i, catAt A j c) -
                      ∑ j ∈ Finset.Icc (i - 23) (i - 12), catAt A j c) /
                     ∑ j ∈ Finset.Icc (i - 23) (i - 12), catAt A j c))) := by
  rw [r12GrowthFull_getD cats A i hi]
  constructor
  · intro h23
    rw [r12GrowthRowAt, if_pos h23]
  · intro h23
    have hn : ¬ i < 23 := not_lt.mpr h23
    rw [r12GrowthRowAt, if_neg hn]
    rw [lookupCat_map_self
      (fun c =>
        if sumWindow A c (i - 23) 12 ≠ 0 then
          some ((sumWindow A c (i - 11) 12 - sumWindow A c (i - 23) 12) /
            sumWindow A c (i - 23) 12)
        else none) cats c hc]
    have hcur : sumWindow A c (i - 11) 12 = ∑ j ∈ Finset.Icc (i - 11) i, catAt A j c := by
      have := sumWindow_eq_sum_Icc A c i 11 (by omega)
      simpa using this
    have hprev : sumWindow A c (i - 23) 12 =
        ∑ j ∈ Finset.Icc (i - 23) (i - 12), catAt A j c := by
      have h12 : i - 12 - 11 = i - 23 := by omega
      have := sumWindow_eq_sum_Icc A c (i - 12) 11 (by omega)
      rw [h12] at this
      simpa using this
    rw [hcur, hprev]
    by_cases hp : (∑ j ∈ Finset.Icc (i - 23) (i - 12), catAt A j c) = 0 <;> simp [hp]

/-- Witness for `r12Growth_spec`: 24 flat months of 100 give growth 0 at
index 23 (the spec §8 scenario). -/
theorem r12Growth_spec_witness :
    lookupCat ((r12GrowthFull ["T"] (monthlyAggAllMonths witnessFacts [ALL])).getD 23
        default).cats "T" = some (some 0) := by
  have h := (r12Growth_spec witnessFacts [ALL] ["T"]
    (monthlyAggAllMonths witnessFacts [ALL]) rfl 23 "T" (by decide) (by decide)).2
    (le_refl 23)
  rw [h]
  decide

/-! ## C2 — rolling-12 value -/

/-- **C2.** In the rolling-12 value series over the branch-filtered
full-history monthly aggregate: for every index `i` and selected category
`c`, the value is `null` when `i < 11` and otherwise the sum of `c` over
indices `[i-11, i]` (absent entries count as 0). -/
theorem r12Value_spec (facts : List Fact) (branches cats : List String)
    (A : List MonthRow) (hA : A = monthlyAggAllMonths facts branches)
    (i : ℕ) (c : String) (hi : i < A.length) (hc : c ∈ cats) :
    (i < 11 → lookupCat ((r12ValueFull cats A).getD i default).cats c = some none) ∧
    (11 ≤ i →
      lookupCat ((r12ValueFull cats A).getD i default).cats c =
        some (some (∑ j ∈ Finset.Icc (i - 11) i, catAt A j c))) := by
  rw [r12ValueFull_getD cats A i hi]
  rw [r12ValueRowAt]
  rw [lookupCat_map_self
    (fun c => if i < 11 then none else some (sumWindow A c (i - 11) 12)) cats c hc]
  constructor
  · intro h11
    simp [h11]
  · intro h11
    have hn : ¬ i < 11 := not_lt.mpr h11
    have hcur : sumWindow A c (i - 11) 12 = ∑ j ∈ Finset.Icc (i - 11) i, catAt A j c := by
      have := sumWindow_eq_sum_Icc A c i 11 h11
      simpa using this
    simp [hn, hcur]

/-- Witness for `r12Value_spec`: 24 flat months of 100 give a rolling value
of 1200 at index 11 (the spec §8 scenario). -/
theorem r12Value_spec_witness :
    lookupCat ((r12ValueFull ["T"] (monthlyAggAllMonths witnessFacts [ALL])).getD 11
        default).cats "T" = some (some 1200) := by
  have h := (r12Value_spec witnessFacts [ALL] ["T"]
    (monthlyAggAllMonths witnessFacts [ALL]) rfl 11 "T" (by decide) (by decide)).2
    (le_refl 11)
  rw [h]
  decide

/-! ## C3 — full-history computation, clipped afterwards -/

/-- **C3.** Both rolling series are computed from the branch-filtered
full-history aggregate `monthlyAggAllMonths` (which takes no window) and
only the *output* is clipped: when both window endpoints parse and
`start ≤ end` the result is the full series filtered to
`start ≤ MonthKey ≤ end`; when an endpoint is unparseable or `start > end`
the full unclipped series is returned. -/
theorem r12_clip_spec (facts : List Fact) (branches cats : List String)
    (dateStart dateEnd : String)
    (hA : monthlyAggAllMonths facts branches ≠ []) (hcats : cats ≠ []) :
    (r12Data facts branches cats dateStart dateEnd =
        clipWindow (r12GrowthFull cats (monthlyAggAllMonths facts branches))
          (keyFromStr dateStart) (keyFromStr dateEnd) ∧
      r12ValueData facts branches cats dateStart dateEnd =
        clipWindow (r12ValueFull cats (monthlyAggAllMonths facts branches))
          (keyFromStr dateStart) (keyFromStr dateEnd)) ∧
    (keyFromStr dateStart = none ∨ keyFromStr dateEnd = none →
      r12Data facts branches cats dateStart dateEnd =
        r12GrowthFull cats (monthlyAggAllMonths facts branches) ∧
      r12ValueData facts branches cats dateStart dateEnd =
        r12ValueFull cats (monthlyAggAllMonths facts branches)) ∧
    (∀ a b, keyFromStr dateStart = some a → keyFromStr dateEnd = some b → b < a →
      r12Data facts branches cats dateStart dateEnd =
        r12GrowthFull cats (monthlyAggAllMonths facts branches) ∧
      r12ValueData facts branches cats dateStart dateEnd =
        r12ValueFull cats (monthlyAggAllMonths facts branches)) ∧
    (∀ a b, keyFromStr dateStart = some a → keyFromStr dateEnd = some b →
      a ≠ 0 → b ≠ 0 → a ≤ b →
      r12Data facts branches cats dateStart dateEnd =
        (r12GrowthFull cats (monthlyAggAllMonths facts branches)).filter
          (fun d => decide (a ≤ ymToKey d.Year d.Month ∧ ymToKey d.Year d.Month ≤ b)) ∧
      r12ValueData facts branches cats dateStart dateEnd =
        (r12ValueFull cats (monthlyAggAllMonths facts branches)).filter
          (fun d => decide (a ≤ ymToKey d.Year d.Month ∧ ymToKey d.Year d.Month ≤ b))) := by
  have hAe : (monthlyAggAllMonths facts branches).isEmpty = false := by
    simpa [List.isEmpty_iff] using hA
  have hce : cats.isEmpty = false := by
    simpa [List.isEmpty_iff] using hcats
  have h1 : r12Data facts branches cats dateStart dateEnd =
      clipWindow (r12GrowthFull cats (monthlyAggAllMonths facts branches))
        (keyFromStr dateStart) (keyFromStr dateEnd) := by
    simp [r12Data, hAe, hce]
  have h2 : r12ValueData facts branches cats dateStart dateEnd =
      clipWindow (r12ValueFull cats (monthlyAggAllMonths facts branches))
        (keyFromStr dateStart) (keyFromStr dateEnd) := by
    simp [r12ValueData, hAe, hce]
  refine ⟨⟨h1, h2⟩, ?_, ?_, ?_⟩
  · rintro (h | h) <;>
      constructor <;>
      simp [h1, h2, clipWindow, hasRange, h]
  · intro a b hsa hsb hba
    have hno : ¬ a ≤ b := not_le.mpr hba
    constructor
    · rw [h1, hsa, hsb]
      simp [clipWindow, hasRange, hno]
    · rw [h2, hsa, hsb]
      simp [clipWindow, hasRange, hno]
  · intro a b hsa hsb ha hb hab
    have hr : hasRange (some a) (some b) = true := by
      simp [hasRange, ha, hb, hab]
    constructor
    · rw [h1, hsa, hsb]
      simp only [clipWindow, hr, if_true]
      rfl
    · rw [h2, hsa, hsb]
      simp only [clipWindow, hr, if_true]
      rfl

/-- Witness for `r12_clip_spec`: with empty window strings the growth
series is returned unclipped. -/
theorem r12_clip_spec_witness :
    r12Data witnessFacts [ALL] ["T"] "" "" =
      r12GrowthFull ["T"] (monthlyAggAllMonths witnessFacts [ALL]) :=
  ((r12_clip_spec witnessFacts [ALL] ["T"] "" ""
    (by decide) (by decide)).2.1 (Or.inl rfl)).1

/-! ## C9 — normalizer error contract -/

/-- **C9, counterexample.** On an input with an empty header list the claim
requires a `MissingColumn` failure (no header matches the Year synonyms),
but the code raises the distinct "No headers found in CSV." error first. -/
theorem normalize_noHeaders_counterexample :
    normalizeParsedRows [] [] = .error .noHeaders ∧
    findHeader yearSynonyms (headersOf [] []) = none ∧
    normalizeParsedRows [] [] ≠ .error .missingColumn := by
  refine ⟨rfl, rfl, fun h => ?_⟩
  have h1 : NormError.noHeaders = NormError.missingColumn := by
    have h0 : normalizeParsedRows [] [] = .error .noHeaders := rfl
    rw [h0] at h
    exact Except.error.inj h
  exact absurd h1 (by decide)

/-- **C9 (amended).** When the resolved (trimmed, falsy-filtered) header
list is empty, normalization fails with the distinct NoHeaders error;
otherwise it fails with `MissingColumn` iff no header case-insensitively
matches the Year synonym set or none matches the Period/Month synonym set;
when both required columns resolve, it fails with `EmptyDataset` iff zero
facts were produced, and otherwise returns the fact list. -/
theorem normalize_error_contract (records : List RawRow) (metaFields : List String)
    (hh : headersOf metaFields records ≠ []) :
    (normalizeParsedRows records metaFields = .error .missingColumn ↔
      (findHeader yearSynonyms (headersOf metaFields records) = none ∨
       findHeader periodSynonyms (headersOf metaFields records) = none)) ∧
    (∀ yc pc,
      findHeader yearSynonyms (headersOf metaFields records) = some yc →
      findHeader periodSynonyms (headersOf metaFields records) = some pc →
      (normalizeParsedRows records metaFields = .error .emptyDataset ↔
        parsedFactsOf records yc pc
          (findHeader branchSynonyms (headersOf metaFields records))
          (catColsOf (headersOf metaFields records) yc pc
            (findHeader branchSynonyms (headersOf metaFields records))) = []) ∧
      (parsedFactsOf records yc pc
          (findHeader branchSynonyms (headersOf metaFields records))
          (catColsOf (headersOf metaFields records) yc pc
            (findHeader branchSynonyms (headersOf metaFields records))) ≠ [] →
        normalizeParsedRows records metaFields =
          .ok (parsedFactsOf records yc pc
            (findHeader branchSynonyms (headersOf metaFields records))
            (catColsOf (headersOf metaFields records) yc pc
              (findHeader branchSynonyms (headersOf metaFields records)))))) := by
  have hhe : (headersOf metaFields records).isEmpty = false := by
    simpa [List.isEmpty_iff] using hh
  constructor
  · cases hy : findHeader yearSynonyms (headersOf metaFields records) with
    | none => simp [normalizeParsedRows, hhe, hy]
    | some yc =>
      cases hp : findHeader periodSynonyms (headersOf metaFields records) with
      | none => simp [normalizeParsedRows, hhe, hy, hp]
      | some pc =>
        simp only [normalizeParsedRows, hhe, hy, hp, Bool.false_eq_true, if_false]
        constructor
        · intro h
          split at h <;> cases h
        · rintro (h | h) <;> cases h
  · intro yc pc hy hp
    constructor
    · simp only [normalizeParsedRows, hhe, hy, hp, Bool.false_eq_true, if_false]
      by_cases hpe : parsedFactsOf records yc pc
          (findHeader branchSynonyms (headersOf metaFields records))
          (catColsOf (headersOf metaFields records) yc pc
            (findHeader branchSynonyms (headersOf metaFields records))) = [] <;>
        simp [List.isEmpty_iff, hpe]
    · intro hne
      simp [normalizeParsedRows, hhe, hy, hp, List.isEmpty_iff, hne]

/-- Witness for `normalize_error_contract`: a dataset with a single header
`"A"` resolves neither required column and fails with `MissingColumn`. -/
theorem normalize_error_contract_witness :
    normalizeParsedRows [[("A", Cell.num 1)]] ["A"] = .error .missingColumn :=
  (normalize_error_contract [[("A", Cell.num 1)]] ["A"] (by decide)).1.mpr
    (Or.inl (by decide))

/-! ## C6 — normalizer invariant -/

theorem findIdx?_go_bound {α : Type} (p : α → Bool) :
    ∀ (l : List α) (s i : ℕ), List.findIdx? p l s = some i → i < s + l.length := by
  intro l
  induction l with
  | nil => intro s i h; cases h
  | cons a t ih =>
    intro s i h
    simp only [List.findIdx?] at h
    by_cases hp : p a
    · rw [if_pos hp] at h
      cases h
      simp
    · rw [if_neg hp] at h
      have := ih (s + 1) i h
      simp only [List.length_cons]
      omega

theorem findIdx?_lt_length {α : Type} (p : α → Bool) (l : List α) (i : ℕ)
    (h : l.findIdx? p = some i) : i < l.length := by
  have := findIdx?_go_bound p l 0 i h
  omega

/-- The month value accepted by the row loop is always in `[1, 12]`. -/
theorem monthOf_bounds (c : Option Cell) (m : ℚ) (h : monthOf c = some m)
    (hm0 : m ≠ 0) : 1 ≤ m ∧ m ≤ 12 := by
  have hclamp : ∀ q : ℚ, 1 ≤ clamp112 q ∧ clamp112 q ≤ 12 :=
    fun q => ⟨le_max_left 1 _, max_le (by norm_num) (min_le_left 12 q)⟩
  have hclamp0 : ∀ q : ℚ, clamp112 q ≠ 0 :=
    fun q => ne_of_gt (lt_of_lt_of_le one_pos (hclamp q).1)
  match c with
  | none => cases h
  | some Cell.nullv =>
    simp only [monthOf, toMonthIndex, cellNum, Option.some.injEq] at h
    exact absurd h.symm hm0
  | some (Cell.num q) =>
    simp only [monthOf, toMonthIndex, hclamp0 q, if_true, ne_eq,
      not_false_eq_true, if_pos, Option.some.injEq] at h
    exact h ▸ hclamp q
  | some (Cell.str s) =>
    cases hn : jsStrToNum s with
    | some n =>
      simp only [monthOf, toMonthIndex, hn, hclamp0 n, ne_eq, not_false_eq_true,
        if_pos, Option.some.injEq] at h
      exact h ▸ hclamp n
    | none =>
      cases hf : monthNames.findIdx?
          (fun x => jsLower x == ⟨((jsTrimChars s.data).take 3).map Char.toLower⟩) with
      | some i =>
        have hlt : i < monthNames.length := findIdx?_lt_length _ monthNames i hf
        have hi0 : (0 : ℚ) ≤ (i : ℚ) := Nat.cast_nonneg i
        have hi11 : (i : ℚ) ≤ 11 := by
          have : i ≤ 11 := by
            simpa [monthNames] using Nat.lt_succ_iff.mp hlt
          exact_mod_cast this
        have hne : ((i : ℚ) + 1) ≠ 0 := by positivity
        simp only [monthOf, toMonthIndex, hn, hf, hne, ne_eq, not_false_eq_true,
          if_pos, Option.some.injEq] at h
        constructor
        · rw [← h]; linarith
        · rw [← h]; linarith
      | none =>
        have hn' : jsCharsToNum s.data = none := hn
        simp only [monthOf, toMonthIndex, cellNum, jsStrToNum, hn', hf] at h
        cases h

/-- The facts returned by a successful normalization come from
`parsedFactsOf` with the resolved columns. -/
theorem normalize_ok_shape (records : List RawRow) (metaFields : List String)
    (facts : List Fact) (h : normalizeParsedRows records metaFields = .ok facts) :
    ∃ yc pc bc cols, facts = parsedFactsOf records yc pc bc cols := by
  simp only [normalizeParsedRows] at h
  split at h
  · cases h
  · split at h
    · split at h
      · cases h
      · cases h
        exact ⟨_, _, _, _, rfl⟩
    · cases h

/-- **C6 (amended).** Every fact emitted by the normalizer has `Month` a
*number* in `[1, 12]` — not necessarily an integer, since numeric month
tokens are clamped into the range without an integrality check — and a
non-zero `Year`; rows whose Year or Month parse falsy are skipped entirely,
and within an accepted row an unparsable category cell skips exactly that
cell: the emitted categories are precisely the (trimmed) category columns
whose cell parses to a number. -/
theorem normalize_invariant (records : List RawRow) (metaFields : List String)
    (facts : List Fact) (h : normalizeParsedRows records metaFields = .ok facts) :
    (∀ f ∈ facts, (1 ≤ f.Month ∧ f.Month ≤ 12) ∧ f.Year ≠ 0) ∧
    (∀ (yc pc : String) (bc : Option String) (cols : List String) (row : RawRow)
      (y m : ℚ), cellNum (row.get yc) = some y → monthOf (row.get pc) = some m →
      y ≠ 0 → m ≠ 0 →
      (rowFacts yc pc bc cols row).map (·.Category) =
        (cols.filter (fun col => (catCellValue (row.get col)).isSome)).map jsTrim) := by
  constructor
  · intro f hf
    obtain ⟨yc, pc, bc, cols, rfl⟩ := normalize_ok_shape records metaFields facts h
    rw [parsedFactsOf] at hf
    obtain ⟨row, hrow, hfrow⟩ := List.mem_flatMap.mp hf
    unfold rowFacts at hfrow
    split at hfrow
    case h_2 => cases hfrow
    case h_1 y m hY hM =>
      split at hfrow
      case isFalse => cases hfrow
      case isTrue hcond =>
        obtain ⟨col, hcol, hv⟩ := List.mem_filterMap.mp hfrow
        obtain ⟨v, hv1, rfl⟩ := Option.map_eq_some'.mp hv
        exact ⟨monthOf_bounds _ _ hM hcond.2, hcond.1⟩
  · intro yc pc bc cols row y m hY hM hy0 hm0
    simp only [rowFacts, hY, hM]
    rw [if_pos (⟨hy0, hm0⟩ : y ≠ 0 ∧ m ≠ 0)]
    induction cols with
    | nil => rfl
    | cons col t ih =>
      cases hcv : catCellValue (row.get col) with
      | none => simpa [List.filterMap_cons, List.filter_cons, hcv] using ih
      | some v => simpa [List.filterMap_cons, List.filter_cons, hcv] using ih

/-- **C6, counterexample.** The month token `"1.5"` is numeric, so the row
is accepted, and the emitted fact has the non-integral `Month = 3/2` —
refuting "Month an integer in [1,12]". -/
theorem normalize_nonintegral_month :
    normalizeParsedRows
        [[("Year", Cell.num 2024), ("Period", Cell.str "1.5"), ("Sales", Cell.num 10)]]
        ["Year", "Period", "Sales"] =
      .ok [{ Year := 2024, Month := 3/2, Category := "Sales", Value := 10, Branch := none }] ∧
    ((3 : ℚ)/2).den ≠ 1 := by
  constructor
  · rfl
  · decide

/-- Witness for `normalize_invariant` on a concrete two-fact dataset. -/
theorem normalize_invariant_witness :
    ((1 ≤ (1 : ℚ) ∧ (1 : ℚ) ≤ 12) ∧ (2023 : ℚ) ≠ 0) ∧
    (rowFacts "Year" "Period" (some "Branch") ["Total"]
        [("Year", Cell.num 2023), ("Period", Cell.num 1), ("Branch", Cell.str "A"),
         ("Total", Cell.num 100)]).map (·.Category) = ["Total"] := by
  have h := normalize_invariant
    [[("Year", Cell.num 2023), ("Period", Cell.num 1), ("Branch", Cell.str "A"),
      ("Total", Cell.num 100)],
     [("Year", Cell.num 2023), ("Period", Cell.num 1), ("Branch", Cell.str "B"),
      ("Total", Cell.num 50)]]
    ["Year", "Period", "Branch", "Total"]
    [{ Year := 2023, Month := 1, Category := "Total", Value := 100, Branch := some "A" },
     { Year := 2023, Month := 1, Category := "Total", Value := 50, Branch := some "B" }]
    rfl
  constructor
  · exact h.1
      { Year := 2023, Month := 1, Category := "Total", Value := 100, Branch := some "A" }
      (by decide)
  · have h2 := h.2 "Year" "Period" (some "Branch") ["Total"]
      [("Year", Cell.num 2023), ("Period", Cell.num 1), ("Branch", Cell.str "A"),
       ("Total", Cell.num 100)] 2023 1 (by decide) (by decide) (by decide) (by decide)
    rw [h2]
    decide

/-! ## C10 — auxiliary lemmas on the aggregation primitives -/

theorem lookupCat_isSome_any {α : Type} (l : List (String × α)) (k : String) :
    (lookupCat l k).isSome = l.any (fun p => p.1 == k) := by
  induction l with
  | nil => rfl
  | cons p t ih =>
    by_cases h : p.1 == k <;>
      simp [lookupCat, List.find?_cons, h, List.any_cons] <;>
      simpa [lookupCat] using ih

theorem lookupCat_isSome_map {α β : Type} (l : List (String × α))
    (g : String × α → String × β) (hg : ∀ p, (g p).1 = p.1) (k : String) :
    (lookupCat (l.map g) k).isSome = (lookupCat l k).isSome := by
  induction l with
  | nil => rfl
  | cons p t ih =>
    by_cases h : p.1 == k
    · have h' : ((g p).1 == k) = true := by rw [hg]; exact h
      simp [lookupCat, List.find?_cons, h, h']
    · have h' : ((g p).1 == k) = false := by
        rw [hg]
        exact Bool.of_not_eq_true h
      simp only [List.map_cons, lookupCat, List.find?_cons, h', Bool.of_not_eq_true h]
      simpa [lookupCat] using ih

theorem lookupCat_isSome_append {α : Type} (l l' : List (String × α)) (k : String) :
    (lookupCat (l ++ l') k).isSome =
      ((lookupCat l k).isSome || (lookupCat l' k).isSome) := by
  induction l with
  | nil => simp [lookupCat]
  | cons p t ih =>
    by_cases h : p.1 == k <;>
      simp only [List.cons_append, lookupCat, List.find?_cons, h] <;>
      simp [lookupCat] at ih ⊢ <;>
      simp [ih]

theorem bumpCat_isSome (l : List (String × ℚ)) (k : String) (v : ℚ) (kk : String) :
    (lookupCat (bumpCat l k v) kk).isSome = true ↔
      kk = k ∨ (lookupCat l kk).isSome = true := by
  unfold bumpCat
  by_cases hany : l.any (fun p => p.1 == k)
  · rw [if_pos hany]
    rw [lookupCat_isSome_map _ _ (fun p => by split <;> rfl)]
    constructor
    · exact Or.inr
    · rintro (rfl | h)
      · rw [lookupCat_isSome_any]
        exact hany
      · exact h
  · rw [if_neg hany, lookupCat_isSome_append]
    simp only [Bool.or_eq_true]
    constructor
    · rintro (h | h)
      · exact Or.inr h
      · by_cases hk : (k == kk) = true
        · exact Or.inl (beq_iff_eq.mp hk).symm
        · exfalso
          simp [lookupCat, List.find?_cons, hk] at h
    · rintro (rfl | h)
      · exact Or.inr (by simp [lookupCat, List.find?_cons])
      · exact Or.inl h

theorem any_sameMonth (acc : List MonthRow) (y m : ℚ) :
    acc.any (sameMonth y m) = true ↔ ∃ mr ∈ acc, mr.Year = y ∧ mr.Month = m := by
  simp [List.any_eq_true, sameMonth]

theorem exists_month_bumpMonth (acc : List MonthRow) (y' m' : ℚ) (c : String) (v : ℚ)
    (y m : ℚ) :
    (∃ mr ∈ bumpMonth acc y' m' c v, mr.Year = y ∧ mr.Month = m) ↔
      (∃ mr ∈ acc, mr.Year = y ∧ mr.Month = m) := by
  unfold bumpMonth
  constructor
  · rintro ⟨mr', hmem, hy, hm⟩
    obtain ⟨mr, hmr, rfl⟩ := List.mem_map.mp hmem
    refine ⟨mr, hmr, ?_, ?_⟩
    · rw [← hy]; split <;> rfl
    · rw [← hm]; split <;> rfl
  · rintro ⟨mr, hmr, hy, hm⟩
    refine ⟨_, List.mem_map_of_mem _ hmr, ?_, ?_⟩
    · rw [← hy]; split <;> rfl
    · rw [← hm]; split <;> rfl

theorem exists_month_ensureMonth (acc : List MonthRow) (y' m' y m : ℚ) :
    (∃ mr ∈ ensureMonth acc y' m', mr.Year = y ∧ mr.Month = m) ↔
      ((∃ mr ∈ acc, mr.Year = y ∧ mr.Month = m) ∨ (y' = y ∧ m' = m)) := by
  unfold ensureMonth
  by_cases hany : acc.any (sameMonth y' m')
  · rw [if_pos hany]
    obtain ⟨mr0, hmr0, h0⟩ := (any_sameMonth acc y' m').mp hany
    constructor
    · exact Or.inl
    · rintro (h | ⟨rfl, rfl⟩)
      · exact h
      · exact ⟨mr0, hmr0, h0⟩
  · rw [if_neg hany]
    constructor
    · rintro ⟨mr, hmem, hy, hm⟩
      rcases List.mem_append.mp hmem with h | h
      · exact Or.inl ⟨mr, h, hy, hm⟩
      · rcases List.mem_singleton.mp h with rfl
        exact Or.inr ⟨hy, hm⟩
    · rintro (⟨mr, hmr, hy, hm⟩ | ⟨rfl, rfl⟩)
      · exact ⟨mr, List.mem_append_left _ hmr, hy, hm⟩
      · exact ⟨_, List.mem_append_right _ (List.mem_singleton_self _), rfl, rfl⟩

theorem sameMonth_iff (y m : ℚ) (mr : MonthRow) :
    sameMonth y m mr = true ↔ mr.Year = y ∧ mr.Month = m := by
  simp [sameMonth]

theorem mem_ensureMonth (acc : List MonthRow) (y m : ℚ) (mr : MonthRow) :
    mr ∈ ensureMonth acc y m ↔
      (mr ∈ acc ∨ (acc.any (sameMonth y m) = false ∧
        mr = { Year := y, Month := m, label := mkMonthLabel y m, cats := [] })) := by
  unfold ensureMonth
  by_cases hany : acc.any (sameMonth y m) = true
  · rw [if_pos hany]
    constructor
    · exact Or.inl
    · rintro (h | ⟨hf, _⟩)
      · exact h
      · rw [hany] at hf
        cases hf
  · rw [if_neg hany]
    have hany' : acc.any (sameMonth y m) = false := Bool.of_not_eq_true hany
    simp [List.mem_append, hany']

theorem exists_visible_append_false (branches : List String) (sk ek : Option ℚ)
    (l : List Fact) (f : Fact) (Q : Fact → Prop)
    (hf : visibleFact branches sk ek f = false) :
    (∃ g ∈ l ++ [f], visibleFact branches sk ek g = true ∧ Q g) ↔
      (∃ g ∈ l, visibleFact branches sk ek g = true ∧ Q g) := by
  constructor
  · rintro ⟨g, hg, hgv, hq⟩
    rcases List.mem_append.mp hg with h | h
    · exact ⟨g, h, hgv, hq⟩
    · rcases List.mem_singleton.mp h with rfl
      rw [hf] at hgv
      cases hgv
  · rintro ⟨g, hg, hgv, hq⟩
    exact ⟨g, List.mem_append_left _ hg, hgv, hq⟩

theorem exists_visible_append_true (branches : List String) (sk ek : Option ℚ)
    (l : List Fact) (f : Fact) (Q : Fact → Prop)
    (hf : visibleFact branches sk ek f = true) :
    (∃ g ∈ l ++ [f], visibleFact branches sk ek g = true ∧ Q g) ↔
      ((∃ g ∈ l, visibleFact branches sk ek g = true ∧ Q g) ∨ Q f) := by
  constructor
  · rintro ⟨g, hg, hgv, hq⟩
    rcases List.mem_append.mp hg with h | h
    · exact Or.inl ⟨g, h, hgv, hq⟩
    · rcases List.mem_singleton.mp h with rfl
      exact Or.inr hq
  · rintro (⟨g, hg, hgv, hq⟩ | hq)
    · exact ⟨g, List.mem_append_left _ hg, hgv, hq⟩
    · exact ⟨f, List.mem_append_right _ (List.mem_singleton_self f), hf, hq⟩

theorem chartInv_step (cats branches : List String) (sk ek : Option ℚ)
    (l : List Fact) (acc : List MonthRow) (f : Fact)
    (h : chartInv cats branches sk ek l acc) :
    chartInv cats branches sk ek (l ++ [f]) (chartStep cats branches sk ek acc f) := by
  obtain ⟨hM, hK⟩ := h
  by_cases hb : matchesBranch branches f.Branch = true
  case neg =>
    have hvis : visibleFact branches sk ek f = false := by
      simp [visibleFact, Bool.of_not_eq_true hb]
    rw [show chartStep cats branches sk ek acc f = acc from by
      unfold chartStep; rw [if_neg hb]]
    refine ⟨fun y m => ?_, fun mr hmr cc => ?_⟩
    · rw [hM y m]
      exact (exists_visible_append_false branches sk ek l f _ hvis).symm
    · rw [hK mr hmr cc]
      exact and_congr_right
        (fun _ => (exists_visible_append_false branches sk ek l f _ hvis).symm)
  case pos =>
    by_cases hw : passesWindow sk ek (ymToKey f.Year f.Month) = true
    case neg =>
      have hvis : visibleFact branches sk ek f = false := by
        simp [visibleFact, hb, Bool.of_not_eq_true hw]
      rw [show chartStep cats branches sk ek acc f = acc from by
        unfold chartStep; rw [if_pos hb, if_neg hw]]
      refine ⟨fun y m => ?_, fun mr hmr cc => ?_⟩
      · rw [hM y m]
        exact (exists_visible_append_false branches sk ek l f _ hvis).symm
      · rw [hK mr hmr cc]
        exact and_congr_right
          (fun _ => (exists_visible_append_false branches sk ek l f _ hvis).symm)
    case pos =>
      have hvis : visibleFact branches sk ek f = true := by
        simp [visibleFact, hb, hw]
      -- no visible fact of `l` has the month of `f` iff `acc` has no such row
      have hnol : acc.any (sameMonth f.Year f.Month) = false →
          ¬ ∃ g ∈ l, visibleFact branches sk ek g = true ∧
            g.Year = f.Year ∧ g.Month = f.Month := by
        intro hnoany hex
        have hacc := (hM f.Year f.Month).mpr hex
        rw [← any_sameMonth] at hacc
        rw [hnoany] at hacc
        cases hacc
      by_cases hsel : cats.contains f.Category = true
      case pos =>
        have hselm : f.Category ∈ cats := by
          simpa [List.elem_iff] using hsel
        rw [show chartStep cats branches sk ek acc f =
            bumpMonth (ensureMonth acc f.Year f.Month) f.Year f.Month f.Category f.Value
          from by unfold chartStep; rw [if_pos hb, if_pos hw, if_pos hsel]]
        refine ⟨fun y m => ?_, fun mr' hmr' cc => ?_⟩
        · rw [exists_month_bumpMonth, exists_month_ensureMonth, hM y m,
            exists_visible_append_true branches sk ek l f _ hvis]
        · obtain ⟨mr, hmr, rfl⟩ := List.mem_map.mp hmr'
          rcases (mem_ensureMonth acc f.Year f.Month mr).mp hmr with hacc | ⟨hnoany, rfl⟩
          · by_cases hsm : sameMonth f.Year f.Month mr = true
            · obtain ⟨hmrY, hmrM⟩ := (sameMonth_iff f.Year f.Month mr).mp hsm
              rw [if_pos hsm]
              show (lookupCat (bumpCat mr.cats f.Category f.Value) cc).isSome = true ↔ _
              rw [bumpCat_isSome, hK mr hacc cc,
                exists_visible_append_true branches sk ek l f _ hvis]
              constructor
              · rintro (rfl | ⟨hcc, hE⟩)
                · exact ⟨hselm, Or.inr ⟨hmrY.symm, hmrM.symm, rfl⟩⟩
                · exact ⟨hcc, Or.inl hE⟩
              · rintro ⟨hcc, hE | ⟨_, _, h3⟩⟩
                · exact Or.inr ⟨hcc, hE⟩
                · exact Or.inl h3.symm
            · rw [if_neg hsm]
              rw [hK mr hacc cc]
              refine and_congr_right (fun hcc => ?_)
              rw [exists_visible_append_true branches sk ek l f _ hvis]
              constructor
              · exact Or.inl
              · rintro (hE | ⟨h1, h2, _⟩)
                · exact hE
                · exact absurd ((sameMonth_iff f.Year f.Month mr).mpr
                    ⟨h1.symm, h2.symm⟩) hsm
          · have hsm : sameMonth f.Year f.Month
                { Year := f.Year, Month := f.Month, label := mkMonthLabel f.Year f.Month,
                  cats := ([] : List (String × ℚ)) } = true := by
              simp [sameMonth]
            rw [if_pos hsm]
            show (lookupCat (bumpCat [] f.Category f.Value) cc).isSome = true ↔ _
            rw [bumpCat_isSome,
              exists_visible_append_true branches sk ek l f _ hvis]
            have hnol' := hnol hnoany
            constructor
            · rintro (rfl | habs)
              · exact ⟨hselm, Or.inr ⟨rfl, rfl, rfl⟩⟩
              · simp [lookupCat] at habs
            · rintro ⟨hcc, hE | ⟨_, _, h3⟩⟩
              · exact absurd ⟨hE.choose, hE.choose_spec.1, hE.choose_spec.2.1,
                  hE.choose_spec.2.2.1, hE.choose_spec.2.2.2.1⟩ hnol'
              · exact Or.inl h3.symm
      case neg =>
        rw [show chartStep cats branches sk ek acc f = ensureMonth acc f.Year f.Month
          from by unfold chartStep; rw [if_pos hb, if_pos hw, if_neg hsel]]
        have hselm : f.Category ∉ cats := by
          intro hmem
          exact hsel (by simpa [List.elem_iff] using hmem)
        refine ⟨fun y m => ?_, fun mr hmr cc => ?_⟩
        · rw [exists_month_ensureMonth, hM y m,
            exists_visible_append_true branches sk ek l f _ hvis]
        · rcases (mem_ensureMonth acc f.Year f.Month mr).mp hmr with hacc | ⟨hnoany, rfl⟩
          · rw [hK mr hacc cc]
            refine and_congr_right (fun hcc => ?_)
            rw [exists_visible_append_true branches sk ek l f _ hvis]
            constructor
            · exact Or.inl
            · rintro (hE | ⟨_, _, h3⟩)
              · exact hE
              · exact absurd (h3 ▸ hcc) hselm
          · have hnol' := hnol hnoany
            constructor
            · intro habs
              simp [lookupCat] at habs
            · rintro ⟨hcc, hE⟩
              rw [exists_visible_append_true branches sk ek l f _ hvis] at hE
              rcases hE with hE | ⟨_, _, h3⟩
              · exact absurd ⟨hE.choose, hE.choose_spec.1, hE.choose_spec.2.1,
                  hE.choose_spec.2.2.1, hE.choose_spec.2.2.2.1⟩ hnol'
              · exact absurd (h3 ▸ hcc) hselm

theorem chartInv_foldl (cats branches : List String) (sk ek : Option ℚ) :
    ∀ (l : List Fact) (acc : List MonthRow) (done : List Fact),
      chartInv cats branches sk ek done acc →
      chartInv cats branches sk ek (done ++ l)
        (l.foldl (chartStep cats branches sk ek) acc) := by
  intro l
  induction l with
  | nil =>
    intro acc done h
    simpa using h
  | cons f t ih =>
    intro acc done h
    have h1 := chartInv_step cats branches sk ek done acc f h
    have h2 := ih (chartStep cats branches sk ek acc f) (done ++ [f]) h1
    simpa [List.append_assoc] using h2

/-- **C10.** In the period-aggregated (`chartData`) series: a month appears
as an output row iff some branch-matching, in-window fact has that month —
in particular a month all of whose matching facts are unselected still
produces a row, with no category keys; a category key is present on a row
iff it is a selected category with a matching in-window fact in that month;
and the rows are sorted ascending by `(Year, Month)`. -/
theorem chartData_spec (facts : List Fact) (cats branches : List String)
    (dateStart dateEnd : String) :
    (∀ y m : ℚ,
      (∃ mr ∈ chartData facts cats branches dateStart dateEnd,
        mr.Year = y ∧ mr.Month = m) ↔
      (∃ f ∈ facts,
        visibleFact branches (keyFromStr dateStart) (keyFromStr dateEnd) f = true ∧
        f.Year = y ∧ f.Month = m)) ∧
    (∀ mr ∈ chartData facts cats branches dateStart dateEnd, ∀ c : String,
      (lookupCat mr.cats c).isSome = true ↔
      (c ∈ cats ∧ ∃ f ∈ facts,
        visibleFact branches (keyFromStr dateStart) (keyFromStr dateEnd) f = true ∧
        f.Year = mr.Year ∧ f.Month = mr.Month ∧ f.Category = c)) ∧
    List.Sorted monthRowLE (chartData facts cats branches dateStart dateEnd) := by
  by_cases hf : facts.isEmpty = true
  · have hfe : facts = [] := List.isEmpty_iff.mp hf
    subst hfe
    rw [show chartData [] cats branches dateStart dateEnd = [] from rfl]
    refine ⟨fun y m => ?_, fun mr hmr => absurd hmr (List.not_mem_nil mr),
      List.sorted_nil⟩
    simp
  · have hinv0 : chartInv cats branches (keyFromStr dateStart) (keyFromStr dateEnd)
        [] [] := by
      refine ⟨fun y m => ?_, fun mr hmr => absurd hmr (List.not_mem_nil mr)⟩
      simp
    have hinv := chartInv_foldl cats branches (keyFromStr dateStart) (keyFromStr dateEnd)
      facts [] [] hinv0
    rw [List.nil_append] at hinv
    obtain ⟨hM, hK⟩ := hinv
    have hchart : chartData facts cats branches dateStart dateEnd =
        sortMonthRows (facts.foldl
          (chartStep cats branches (keyFromStr dateStart) (keyFromStr dateEnd)) []) := by
      unfold chartData
      rw [if_neg hf]
    refine ⟨fun y m => ?_, fun mr hmr c => ?_, ?_⟩
    · rw [hchart]
      simp only [sortMonthRows, List.mem_insertionSort]
      exact hM y m
    · rw [hchart] at hmr
      have hmr' : mr ∈ facts.foldl
          (chartStep cats branches (keyFromStr dateStart) (keyFromStr dateEnd)) [] := by
        simpa [sortMonthRows, List.mem_insertionSort] using hmr
      exact hK mr hmr' c
    · rw [hchart]
      exact List.sorted_insertionSort monthRowLE _

/-- Witness for `chartData_spec` on `mixedFacts`: the month 2023-02 (whose
only fact is unselected) still yields a row; that row carries no selected
fact of its month; and the output is sorted. -/
theorem chartData_spec_witness :
    (∃ mr ∈ chartData mixedFacts ["Total"] [ALL] "" "", mr.Year = 2023 ∧ mr.Month = 2) ∧
    ¬ (∃ f ∈ mixedFacts,
      visibleFact [ALL] (keyFromStr "") (keyFromStr "") f = true ∧
      f.Year = 2023 ∧ f.Month = (2 : ℚ) ∧ f.Category = "Total") ∧
    List.Sorted monthRowLE (chartData mixedFacts ["Total"] [ALL] "" "") := by
  have h := chartData_spec mixedFacts ["Total"] [ALL] "" ""
  refine ⟨?_, ?_, h.2.2⟩
  · exact (h.1 2023 2).mpr
      ⟨{ Year := 2023, Month := 2, Category := "Other", Value := 7, Branch := some "B" },
        by decide, by decide, rfl, rfl⟩
  · intro hr
    have h2 := (h.2.1 { Year := 2023, Month := 2, label := "Feb 2023", cats := [] }
      (by decide) "Total").mpr ⟨by decide, hr⟩
    exact absurd h2 (by decide)

/-! ## C8 — auxiliary lemmas on accumulator objects -/

theorem lookupCat_cons {α : Type} (a : String) (b : α) (t : List (String × α))
    (c : String) :
    lookupCat ((a, b) :: t) c = if (a == c) = true then some b else lookupCat t c := by
  cases h : (a == c) <;> simp [lookupCat, List.find?, h]

theorem lookupCatD_cons (a : String) (b : ℚ) (t : List (String × ℚ)) (c : String) :
    lookupCatD ((a, b) :: t) c = if (a == c) = true then b else lookupCatD t c := by
  unfold lookupCatD
  rw [lookupCat_cons]
  by_cases h : (a == c) = true
  · rw [if_pos h, if_pos h]
    rfl
  · rw [if_neg h, if_neg h]

theorem any_key_iff {β : Type} (l : List (String × β)) (b : String) :
    l.any (fun p => p.1 == b) = true ↔ b ∈ l.map (·.1) := by
  constructor
  · intro h
    obtain ⟨p, hp, hpk⟩ := List.any_eq_true.mp h
    exact List.mem_map.mpr ⟨p, hp, beq_iff_eq.mp hpk⟩
  · intro h
    obtain ⟨p, hp, hpb⟩ := List.mem_map.mp h
    exact List.any_eq_true.mpr ⟨p, hp, beq_iff_eq.mpr hpb⟩

theorem keys_map_update (k : String) (v : ℚ) :
    ∀ l : List (String × ℚ),
      (l.map (fun p => if p.1 == k then (p.1, p.2 + v) else p)).map (·.1) =
        l.map (·.1) := by
  intro l
  induction l with
  | nil => rfl
  | cons p t ih =>
    obtain ⟨a, b⟩ := p
    simp only [List.map_cons]
    by_cases h : (a == k) = true
    · rw [if_pos h]
      simp only [List.map_cons, ih]
    · rw [if_neg h]
      simp only [List.map_cons, ih]

theorem keys_bumpAssoc (l : List (String × ℚ)) (k : String) (v : ℚ) :
    (bumpAssoc l k v).map (·.1) = l.map (·.1) :=
  keys_map_update k v l

theorem lookupCatD_map_update_ne (k : String) (v : ℚ) (c : String) (hc : c ≠ k) :
    ∀ l : List (String × ℚ),
      lookupCatD (l.map (fun p => if p.1 == k then (p.1, p.2 + v) else p)) c =
        lookupCatD l c := by
  intro l
  induction l with
  | nil => rfl
  | cons p t ih =>
    obtain ⟨a, b⟩ := p
    simp only [List.map_cons]
    by_cases h : (a == k) = true
    · have ha : a = k := beq_iff_eq.mp h
      have hac : (a == c) = false := by
        rw [ha]
        exact beq_eq_false_iff_ne.mpr (fun he => hc he.symm)
      rw [if_pos h, lookupCatD_cons, lookupCatD_cons, hac, if_neg (by simp), ih,
        if_neg (by simp)]
    · rw [if_neg h, lookupCatD_cons, lookupCatD_cons, ih]

theorem lookupCatD_map_update_self (k : String) (v : ℚ) :
    ∀ l : List (String × ℚ), k ∈ l.map (·.1) →
      lookupCatD (l.map (fun p => if p.1 == k then (p.1, p.2 + v) else p)) k =
        lookupCatD l k + v := by
  intro l
  induction l with
  | nil => intro hk; cases hk
  | cons p t ih =>
    obtain ⟨a, b⟩ := p
    intro hk
    simp only [List.map_cons]
    by_cases h : (a == k) = true
    · rw [if_pos h, lookupCatD_cons, lookupCatD_cons, if_pos h, if_pos h]
    · have hk' : k ∈ t.map (·.1) := by
        rcases List.mem_map.mp hk with ⟨q, hq, hqk⟩
        rcases List.mem_cons.mp hq with rfl | hq'
        · exact absurd (beq_iff_eq.mpr hqk) h
        · exact List.mem_map.mpr ⟨q, hq', hqk⟩
      rw [if_neg h, lookupCatD_cons, lookupCatD_cons, if_neg h, if_neg h, ih hk']

theorem lookupCat_none_of_not_mem {α : Type} :
    ∀ (l : List (String × α)) (k : String), k ∉ l.map (·.1) → lookupCat l k = none := by
  intro l
  induction l with
  | nil => intro k _; rfl
  | cons p t ih =>
    obtain ⟨a, b⟩ := p
    intro k hk
    have h1 : (a == k) = false := by
      refine beq_eq_false_iff_ne.mpr (fun he => hk ?_)
      simp [he]
    rw [lookupCat_cons, if_neg (by simp [h1])]
    exact ih k (fun hm => hk (by simp [List.mem_map] at hm ⊢; tauto))

theorem lookupCat_append_left {α : Type} (l' : List (String × α)) :
    ∀ (l : List (String × α)) (k : String), k ∈ l.map (·.1) →
      lookupCat (l ++ l') k = lookupCat l k := by
  intro l
  induction l with
  | nil => intro k hk; cases hk
  | cons p t ih =>
    obtain ⟨a, b⟩ := p
    intro k hk
    by_cases h : (a == k) = true
    · rw [List.cons_append, lookupCat_cons, lookupCat_cons, if_pos h, if_pos h]
    · have hk' : k ∈ t.map (·.1) := by
        rcases List.mem_map.mp hk with ⟨q, hq, hqk⟩
        rcases List.mem_cons.mp hq with rfl | hq'
        · exact absurd (beq_iff_eq.mpr hqk) h
        · exact List.mem_map.mpr ⟨q, hq', hqk⟩
      rw [List.cons_append, lookupCat_cons, lookupCat_cons, if_neg h, if_neg h, ih k hk']

theorem lookupCat_append_right {α : Type} (l' : List (String × α)) :
    ∀ (l : List (String × α)) (k : String), k ∉ l.map (·.1) →
      lookupCat (l ++ l') k = lookupCat l' k := by
  intro l
  induction l with
  | nil => intro k _; rfl
  | cons p t ih =>
    obtain ⟨a, b⟩ := p
    intro k hk
    have h1 : (a == k) = false := by
      refine beq_eq_false_iff_ne.mpr (fun he => hk ?_)
      simp [he]
    rw [List.cons_append, lookupCat_cons, if_neg (by simp [h1])]
    exact ih k (fun hm => hk (by simp [List.mem_map] at hm ⊢; tauto))

theorem lookupCatD_bumpAssoc_ne (l : List (String × ℚ)) (k : String) (v : ℚ)
    (c : String) (hc : c ≠ k) :
    lookupCatD (bumpAssoc l k v) c = lookupCatD l c :=
  lookupCatD_map_update_ne k v c hc l

theorem lookupCatD_bumpAssoc_self (l : List (String × ℚ)) (k : String) (v : ℚ)
    (hk : k ∈ l.map (·.1)) :
    lookupCatD (bumpAssoc l k v) k = lookupCatD l k + v :=
  lookupCatD_map_update_self k v l hk

theorem keys_initTotals (cats : List String) :
    (initTotals cats).map (·.1) = cats := by
  induction cats with
  | nil => rfl
  | cons a t ih => simp only [initTotals, List.map_cons] at ih ⊢; rw [ih]

theorem lookupCatD_initTotals (cats : List String) (c : String) :
    lookupCatD (initTotals cats) c = 0 := by
  induction cats with
  | nil => rfl
  | cons a t ih =>
    simp only [initTotals, List.map_cons] at ih ⊢
    rw [lookupCatD_cons]
    by_cases h : (a == c) = true
    · rw [if_pos h]
    · rw [if_neg h, ih]

theorem map_update_of_no_key {β : Type} (u : String × β → String × β) (b : String)
    (hu : ∀ p : String × β, p.1 ≠ b → u p = p) :
    ∀ l : List (String × β), b ∉ l.map (·.1) → l.map u = l := by
  intro l
  induction l with
  | nil => intro _; rfl
  | cons p t ih =>
    intro hb
    have hp : p.1 ≠ b := fun he => hb (by simp [he])
    have ht : b ∉ t.map (·.1) := fun hm => hb (by simp [List.mem_map] at hm ⊢; tauto)
    simp [hu p hp, ih ht]

theorem sum_map_update {β : Type} (u : String × β → String × β) (b : String)
    (h : β → ℚ) (δ : ℚ) (hu_ne : ∀ p : String × β, p.1 ≠ b → u p = p) :
    ∀ l : List (String × β), (l.map (·.1)).Nodup → b ∈ l.map (·.1) →
      (∀ p ∈ l, p.1 = b → h (u p).2 = h p.2 + δ) →
      ((l.map u).map (fun p => h p.2)).sum = (l.map (fun p => h p.2)).sum + δ := by
  intro l
  induction l with
  | nil => intro _ hb; cases hb
  | cons p t ih =>
    intro hnod hb hδ
    by_cases hp : p.1 = b
    · have ht : b ∉ t.map (·.1) := by
        rw [List.map_cons, List.nodup_cons] at hnod
        exact hp ▸ hnod.1
      rw [List.map_cons, map_update_of_no_key u b hu_ne t ht]
      simp only [List.map_cons, List.sum_cons]
      rw [hδ p (List.mem_cons_self p t) hp]
      ring
    · have hb' : b ∈ t.map (·.1) := by
        rcases List.mem_map.mp hb with ⟨q, hq, hqk⟩
        rcases List.mem_cons.mp hq with rfl | hq'
        · exact absurd hqk hp
        · exact List.mem_map.mpr ⟨q, hq', hqk⟩
      have hnod' : (t.map (·.1)).Nodup := by
        rw [List.map_cons, List.nodup_cons] at hnod
        exact hnod.2
      rw [List.map_cons, hu_ne p hp]
      simp only [List.map_cons, List.sum_cons]
      rw [ih hnod' hb' (fun q hq hqb => hδ q (List.mem_cons_of_mem p hq) hqb)]
      ring

theorem keys_map_general {β : Type} (u : String × β → String × β)
    (hu : ∀ p, (u p).1 = p.1) :
    ∀ l : List (String × β), (l.map u).map (·.1) = l.map (·.1) := by
  intro l
  induction l with
  | nil => rfl
  | cons p t ih => simp only [List.map_cons, ih, hu p]

theorem sumInv_step (cats branches : List String) (sk ek : Option ℚ)
    (s : SumState) (f : Fact) (h : sumInv cats s) :
    sumInv cats (summaryStep cats branches sk ek s f) := by
  obtain ⟨hT, hB, hN, hG, hC⟩ := h
  by_cases h1 : matchesBranch branches f.Branch = true
  case neg =>
    rw [show summaryStep cats branches sk ek s f = s from by
      unfold summaryStep; rw [if_neg h1]]
    exact ⟨hT, hB, hN, hG, hC⟩
  case pos =>
  by_cases h2 : passesWindow sk ek (ymToKey f.Year f.Month) = true
  case neg =>
    rw [show summaryStep cats branches sk ek s f = s from by
      unfold summaryStep; rw [if_pos h1, if_neg h2]]
    exact ⟨hT, hB, hN, hG, hC⟩
  case pos =>
  by_cases h3 : cats.contains f.Category = true
  case neg =>
    rw [show summaryStep cats branches sk ek s f = s from by
      unfold summaryStep; rw [if_pos h1, if_pos h2, if_neg h3]]
    exact ⟨hT, hB, hN, hG, hC⟩
  case pos =>
  have hfc : f.Category ∈ cats := by simpa [List.elem_iff] using h3
  have hstep : summaryStep cats branches sk ek s f =
      { byBranch := (if s.byBranch.any (fun p => p.1 == branchKey f.Branch)
            then s.byBranch
            else s.byBranch ++
              [(branchKey f.Branch, { cats := initTotals cats, total := 0 })]).map
          (fun p => if p.1 == branchKey f.Branch then
            (p.1, { cats := bumpAssoc p.2.cats f.Category f.Value,
                    total := p.2.total + f.Value })
          else p),
        totals := bumpAssoc s.totals f.Category f.Value,
        grand := s.grand + f.Value } := by
    unfold summaryStep
    rw [if_pos h1, if_pos h2, if_pos h3]
  rw [hstep]
  set b := branchKey f.Branch with hbdef
  set u : String × BranchAcc → String × BranchAcc :=
    fun p => if p.1 == b then
      (p.1, { cats := bumpAssoc p.2.cats f.Category f.Value,
              total := p.2.total + f.Value })
    else p with hudef
  set by0 := if s.byBranch.any (fun p => p.1 == b) then s.byBranch
             else s.byBranch ++ [(b, ({ cats := initTotals cats, total := 0 } : BranchAcc))]
    with hby0def
  have hprops : b ∈ by0.map (·.1) ∧ (∀ p ∈ by0, p.2.cats.map (·.1) = cats) ∧
      (by0.map (·.1)).Nodup ∧ ((by0.map (fun p => p.2.total)).sum = s.grand) ∧
      (∀ c ∈ cats, lookupCatD s.totals c =
        (by0.map (fun p => lookupCatD p.2.cats c)).sum) := by
    rw [hby0def]
    by_cases hany : s.byBranch.any (fun p => p.1 == b) = true
    · rw [if_pos hany]
      exact ⟨(any_key_iff _ _).mp hany, hB, hN, hG, hC⟩
    · rw [if_neg hany]
      have hbnot : b ∉ s.byBranch.map (·.1) := fun hm =>
        hany ((any_key_iff _ _).mpr hm)
      refine ⟨?_, ?_, ?_, ?_, ?_⟩
      · simp
      · intro p hp
        rcases List.mem_append.mp hp with hp' | hp'
        · exact hB p hp'
        · rcases List.mem_singleton.mp hp' with rfl
          exact keys_initTotals cats
      · simp only [List.map_append, List.map_cons, List.map_nil]
        rw [List.nodup_append]
        exact ⟨hN, List.nodup_singleton b, by simpa using hbnot⟩
      · simp [hG]
      · intro c hcc
        simp [hC c hcc, lookupCatD_initTotals]
  obtain ⟨hb0, hkeys0, hnod0, hsum0, hcol0⟩ := hprops
  have hu1 : ∀ p, (u p).1 = p.1 := fun p => by
    rw [hudef]
    dsimp only
    split <;> rfl
  have hu_ne : ∀ p : String × BranchAcc, p.1 ≠ b → u p = p := fun p hp => by
    rw [hudef]
    dsimp only
    exact if_neg (by simpa using hp)
  refine ⟨?_, ?_, ?_, ?_, ?_⟩
  · show (bumpAssoc s.totals f.Category f.Value).map (·.1) = cats
    rw [keys_bumpAssoc, hT]
  · show ∀ p ∈ by0.map u, p.2.cats.map (·.1) = cats
    intro p hp
    obtain ⟨q, hq, rfl⟩ := List.mem_map.mp hp
    by_cases hqb : (q.1 == b) = true
    · rw [hudef]
      show ((if q.1 == b then
        (q.1, { cats := bumpAssoc q.2.cats f.Category f.Value,
                total := q.2.total + f.Value }) else q)).2.cats.map (·.1) = cats
      rw [if_pos hqb]
      show (bumpAssoc q.2.cats f.Category f.Value).map (·.1) = cats
      rw [keys_bumpAssoc]
      exact hkeys0 q hq
    · rw [hudef]
      show ((if q.1 == b then
        (q.1, { cats := bumpAssoc q.2.cats f.Category f.Value,
                total := q.2.total + f.Value }) else q)).2.cats.map (·.1) = cats
      rw [if_neg hqb]
      exact hkeys0 q hq
  · show ((by0.map u).map (·.1)).Nodup
    rw [keys_map_general u hu1]
    exact hnod0
  · show ((by0.map u).map (fun p => p.2.total)).sum = s.grand + f.Value
    have hpoint : ∀ p ∈ by0, p.1 = b →
        (fun acc : BranchAcc => acc.total) (u p).2 =
          (fun acc : BranchAcc => acc.total) p.2 + f.Value := by
      intro p hp hpb
      rw [hudef]
      show ((if p.1 == b then
        (p.1, { cats := bumpAssoc p.2.cats f.Category f.Value,
                total := p.2.total + f.Value }) else p)).2.total = p.2.total + f.Value
      rw [if_pos (beq_iff_eq.mpr hpb)]
    have hsum := sum_map_update u b (fun acc : BranchAcc => acc.total) f.Value hu_ne
      by0 hnod0 hb0 hpoint
    calc ((by0.map u).map (fun p => p.2.total)).sum
        = (by0.map (fun p => p.2.total)).sum + f.Value := hsum
      _ = s.grand + f.Value := by rw [hsum0]
  · show ∀ c ∈ cats, lookupCatD (bumpAssoc s.totals f.Category f.Value) c =
      ((by0.map u).map (fun p => lookupCatD p.2.cats c)).sum
    intro c hcc
    by_cases hceq : c = f.Category
    · rw [hceq]
      rw [lookupCatD_bumpAssoc_self s.totals f.Category f.Value (by rw [hT]; exact hfc)]
      have hpoint : ∀ p ∈ by0, p.1 = b →
          (fun acc : BranchAcc => lookupCatD acc.cats f.Category) (u p).2 =
            (fun acc : BranchAcc => lookupCatD acc.cats f.Category) p.2 + f.Value := by
        intro p hp hpb
        rw [hudef]
        show lookupCatD ((if p.1 == b then
          (p.1, { cats := bumpAssoc p.2.cats f.Category f.Value,
                  total := p.2.total + f.Value }) else p)).2.cats f.Category =
            lookupCatD p.2.cats f.Category + f.Value
        rw [if_pos (beq_iff_eq.mpr hpb)]
        exact lookupCatD_bumpAssoc_self _ _ _ (by rw [hkeys0 p hp]; exact hfc)
      have hsum := sum_map_update u b
        (fun acc : BranchAcc => lookupCatD acc.cats f.Category)
        f.Value hu_ne by0 hnod0 hb0 hpoint
      calc lookupCatD s.totals f.Category + f.Value
          = (by0.map (fun p => lookupCatD p.2.cats f.Category)).sum + f.Value := by
            rw [hcol0 f.Category hfc]
        _ = ((by0.map u).map (fun p => lookupCatD p.2.cats f.Category)).sum := hsum.symm
    · rw [lookupCatD_bumpAssoc_ne s.totals f.Category f.Value c hceq]
      have hpoint : ∀ p ∈ by0, p.1 = b →
          (fun acc : BranchAcc => lookupCatD acc.cats c) (u p).2 =
            (fun acc : BranchAcc => lookupCatD acc.cats c) p.2 + 0 := by
        intro p hp hpb
        rw [hudef]
        show lookupCatD ((if p.1 == b then
          (p.1, { cats := bumpAssoc p.2.cats f.Category f.Value,
                  total := p.2.total + f.Value }) else p)).2.cats c =
            lookupCatD p.2.cats c + 0
        rw [if_pos (beq_iff_eq.mpr hpb)]
        show lookupCatD (bumpAssoc p.2.cats f.Category f.Value) c =
          lookupCatD p.2.cats c + 0
        rw [lookupCatD_bumpAssoc_ne _ _ _ _ hceq, add_zero]
      have hsum := sum_map_update u b (fun acc : BranchAcc => lookupCatD acc.cats c)
        0 hu_ne by0 hnod0 hb0 hpoint
      calc lookupCatD s.totals c
          = (by0.map (fun p => lookupCatD p.2.cats c)).sum := hcol0 c hcc
        _ = ((by0.map u).map (fun p => lookupCatD p.2.cats c)).sum := by
            rw [hsum, add_zero]

theorem summaryStep_grand (cats branches : List String) (sk ek : Option ℚ)
    (s : SumState) (f : Fact) :
    (summaryStep cats branches sk ek s f).grand =
      s.grand + (if acceptedByFilters cats branches sk ek f = true then f.Value else 0) := by
  unfold summaryStep acceptedByFilters visibleFact
  by_cases h1 : matchesBranch branches f.Branch = true
  · by_cases h2 : passesWindow sk ek (ymToKey f.Year f.Month) = true
    · by_cases h3 : cats.contains f.Category = true
      · have hfc : f.Category ∈ cats := by simpa [List.elem_iff] using h3
        simp [h1, h2, h3, hfc]
      · have hfc : f.Category ∉ cats := fun hm => h3 (by simpa [List.elem_iff] using hm)
        simp [h1, h2, h3, hfc]
    · simp [h1, Bool.of_not_eq_true h2]
  · simp [Bool.of_not_eq_true h1]

theorem summary_grand_foldl (cats branches : List String) (sk ek : Option ℚ) :
    ∀ (l : List Fact) (s : SumState),
      (l.foldl (summaryStep cats branches sk ek) s).grand =
        s.grand + ((l.filter (acceptedByFilters cats branches sk ek)).map (·.Value)).sum := by
  intro l
  induction l with
  | nil => intro s; simp
  | cons f t ih =>
    intro s
    rw [List.foldl_cons, ih, summaryStep_grand]
    by_cases h : acceptedByFilters cats branches sk ek f = true
    · simp only [List.filter_cons, h, if_pos, List.map_cons, List.sum_cons]
      ring
    · simp only [List.filter_cons, h, Bool.false_eq_true, if_false, if_neg,
        Bool.of_not_eq_true h]
      ring

theorem sumInv_foldl (cats branches : List String) (sk ek : Option ℚ) :
    ∀ (l : List Fact) (s : SumState), sumInv cats s →
      sumInv cats (l.foldl (summaryStep cats branches sk ek) s) := by
  intro l
  induction l with
  | nil => intro s h; exact h
  | cons f t ih =>
    intro s h
    rw [List.foldl_cons]
    exact ih _ (sumInv_step cats branches sk ek s f h)

/-- **C8.** Conservation law of the branch summary: the grand total
`totals.__total` equals the sum of `Value` over all facts passing the
branch, window and category filters; it equals the sum of the per-branch
row totals; and each per-category grand total equals the sum of that
category's column over the rows. -/
theorem branchSummary_conservation (facts : List Fact) (cats branches : List String)
    (dateStart dateEnd : String) (hf : facts ≠ []) (hc : cats ≠ [])
    (ht : "__total" ∉ cats) :
    (lookupCat (branchSummary facts cats branches dateStart dateEnd).totals "__total" =
      some (((facts.filter (acceptedByFilters cats branches (keyFromStr dateStart)
        (keyFromStr dateEnd))).map (·.Value)).sum)) ∧
    (((branchSummary facts cats branches dateStart dateEnd).rows.map (·.total)).sum =
      ((facts.filter (acceptedByFilters cats branches (keyFromStr dateStart)
        (keyFromStr dateEnd))).map (·.Value)).sum) ∧
    (∀ c ∈ cats,
      lookupCatD (branchSummary facts cats branches dateStart dateEnd).totals c =
        ((branchSummary facts cats branches dateStart dateEnd).rows.map
          (fun r => lookupCatD r.cats c)).sum) := by
  have hfe : facts.isEmpty = false := by simpa [List.isEmpty_iff] using hf
  have hce : cats.isEmpty = false := by simpa [List.isEmpty_iff] using hc
  have hinv0 : sumInv cats
      { byBranch := [], totals := initTotals cats, grand := 0 } :=
    ⟨keys_initTotals cats, fun p hp => absurd hp (List.not_mem_nil p), List.nodup_nil,
      rfl, fun c hcc => by simp [lookupCatD_initTotals]⟩
  have hinv := sumInv_foldl cats branches (keyFromStr dateStart) (keyFromStr dateEnd)
    facts { byBranch := [], totals := initTotals cats, grand := 0 } hinv0
  obtain ⟨hT, hB, hN, hG, hC⟩ := hinv
  have hgrand := summary_grand_foldl cats branches (keyFromStr dateStart)
    (keyFromStr dateEnd) facts { byBranch := [], totals := initTotals cats, grand := 0 }
  rw [show ({ byBranch := [], totals := initTotals cats, grand := 0 : SumState }).grand = 0
    from rfl, zero_add] at hgrand
  have hsummary : branchSummary facts cats branches dateStart dateEnd =
      { rows := ((facts.foldl (summaryStep cats branches (keyFromStr dateStart)
            (keyFromStr dateEnd))
            { byBranch := [], totals := initTotals cats, grand := 0 }).byBranch.map
          (fun p => { Branch := p.1, cats := p.2.cats, total := p.2.total })).insertionSort
          branchRowLE,
        totals := (facts.foldl (summaryStep cats branches (keyFromStr dateStart)
            (keyFromStr dateEnd))
            { byBranch := [], totals := initTotals cats, grand := 0 }).totals ++
          [("__total", (facts.foldl (summaryStep cats branches (keyFromStr dateStart)
            (keyFromStr dateEnd))
            { byBranch := [], totals := initTotals cats, grand := 0 }).grand)] } := by
    unfold branchSummary
    rw [hfe, hce]
    rfl
  set st := facts.foldl (summaryStep cats branches (keyFromStr dateStart)
    (keyFromStr dateEnd)) { byBranch := [], totals := initTotals cats, grand := 0 }
    with hstdef
  have hperm : List.Perm
      ((st.byBranch.map
        (fun p => ({ Branch := p.1, cats := p.2.cats, total := p.2.total } : BranchRow))).insertionSort
          branchRowLE)
      (st.byBranch.map
        (fun p => ({ Branch := p.1, cats := p.2.cats, total := p.2.total } : BranchRow))) :=
    List.perm_insertionSort _ _
  refine ⟨?_, ?_, ?_⟩
  · rw [hsummary]
    show lookupCat (st.totals ++ [("__total", st.grand)]) "__total" = _
    rw [lookupCat_append_right _ st.totals "__total" (by rw [hT]; exact ht),
      lookupCat_cons, if_pos (by decide), hgrand]
  · rw [hsummary]
    show (((st.byBranch.map
      (fun p => ({ Branch := p.1, cats := p.2.cats, total := p.2.total } : BranchRow))).insertionSort
        branchRowLE).map (·.total)).sum = _
    rw [(hperm.map (·.total)).sum_eq]
    rw [List.map_map]
    have : ((fun r : BranchRow => r.total) ∘
        fun p : String × BranchAcc =>
          ({ Branch := p.1, cats := p.2.cats, total := p.2.total } : BranchRow)) =
        fun p : String × BranchAcc => p.2.total := rfl
    rw [this, hG, ← hgrand]
  · intro c hcc
    rw [hsummary]
    show lookupCatD (st.totals ++ [("__total", st.grand)]) c = _
    unfold lookupCatD
    rw [lookupCat_append_left _ st.totals c (by rw [hT]; exact hcc)]
    have hcol := hC c hcc
    unfold lookupCatD at hcol
    rw [hcol]
    show _ = (((st.byBranch.map
      (fun p => ({ Branch := p.1, cats := p.2.cats, total := p.2.total } : BranchRow))).insertionSort
        branchRowLE).map (fun r => lookupCatD r.cats c)).sum
    rw [(hperm.map (fun r => lookupCatD r.cats c)).sum_eq, List.map_map]
    rfl

/-- Witness for `branchSummary_conservation` on `mixedFacts` with the
single selected category `"Total"`: the grand total is 100. -/
theorem branchSummary_conservation_witness :
    lookupCat (branchSummary mixedFacts ["Total"] [ALL] "" "").totals "__total" =
      some 100 := by
  have h := (branchSummary_conservation mixedFacts ["Total"] [ALL] "" ""
    (by decide) (by decide) (by decide)).1
  rw [h]
  decide

end HistoricalSales
